import Mathlib

/-!
Verification of the bmo-server backend: linkage state machine
(parent / specialist / child association), per-child content aggregate
store, and progress ledger, shallowly embedded from the Express routes
and Mongoose models.
-/

namespace BmoServer

/-- Document identifiers (Mongo ObjectIds), abstracted as naturals. -/
abbrev Id := Nat

/-- Error responses produced by the route handlers, keyed by HTTP class. -/
inductive Err where
  | unauthorized (msg : String)
  | forbidden (msg : String)
  | notFound (msg : String)
  | badRequest (msg : String)
  | server (msg : String)
deriving DecidableEq, Repr

/-- User roles (`userSchema.role` enum). -/
inductive Role where
  | parent | specialist | admin | superadmin
deriving DecidableEq, Repr

/-- `childSchema.specialistRequestStatus` enum. -/
inductive ReqStatus where
  | none | pending | approved | rejected
deriving DecidableEq, Repr

/-- `linkRequestSchema.status` enum. -/
inductive LRStatus where
  | pending | accepted | rejected
deriving DecidableEq, Repr

/-- The linkage-relevant fields of a User document. -/
structure UserRec where
  role : Role
  email : String := ""
  linkedSpecialist : Option Id := Option.none
  linkedParents : List Id := []
  assignedChildren : List Id := []
deriving DecidableEq, Repr

/-- The linkage-relevant fields of a Child document. -/
structure ChildRec where
  parent : Id
  assignedSpecialist : Option Id := Option.none
  specialistRequestStatus : ReqStatus := ReqStatus.none
deriving DecidableEq, Repr

/-- A LinkRequest document (`from`/`to`/`child`/`status`/`message`). -/
structure LinkReq where
  fromUser : Id
  toUser : Id
  child : Id
  status : LRStatus := LRStatus.pending
  message : String := ""
deriving DecidableEq, Repr

/-- A Notification document, reduced to recipient and the `data.childIds`
payload used by the unlink cascade. -/
structure Notif where
  recipient : Id
  childIds : List Id := []
deriving DecidableEq, Repr

/-- Persistent state seen by the linkage routes: the users, children and
link-request collections, the notifications created so far, and a counter
supplying fresh document ids. -/
structure St where
  users : List (Id × UserRec) := []
  children : List (Id × ChildRec) := []
  requests : List (Id × LinkReq) := []
  notifs : List Notif := []
  nextId : Id := 100
deriving DecidableEq, Repr

instance {ε α : Type} [DecidableEq ε] [DecidableEq α] : DecidableEq (Except ε α) := fun a b =>
  match a, b with
  | Except.ok x, Except.ok y =>
    if h : x = y then isTrue (congrArg Except.ok h)
    else isFalse (fun hh => h (Except.ok.inj hh))
  | Except.error x, Except.error y =>
    if h : x = y then isTrue (congrArg Except.error h)
    else isFalse (fun hh => h (Except.error.inj hh))
  | Except.ok _, Except.error _ => isFalse (fun hh => Except.noConfusion hh)
  | Except.error _, Except.ok _ => isFalse (fun hh => Except.noConfusion hh)

/-- JS `String.prototype.trim`: strip leading and trailing whitespace. -/
def jsTrim (t : String) : String :=
  ⟨((t.data.dropWhile (fun c => c.isWhitespace)).reverse.dropWhile
      (fun c => c.isWhitespace)).reverse⟩

/-- JS `String.prototype.toLowerCase` (ASCII case folding suffices here). -/
def jsToLower (t : String) : String := ⟨t.data.map Char.toLower⟩

/-- `findById` on a collection keyed by id (first match). -/
def lookupA {α : Type} : List (Id × α) → Id → Option α
  | [], _ => Option.none
  | kv :: t, i => if kv.1 = i then some kv.2 else lookupA t i

/-- `updateMany`: apply `f` to every entry satisfying `P`. -/
def mapWhere {α : Type} (P : Id × α → Prop) [DecidablePred P] (f : α → α)
    (l : List (Id × α)) : List (Id × α) :=
  l.map (fun kv => if P kv then (kv.1, f kv.2) else kv)

/-- Point update of a collection keyed by id (`findByIdAndUpdate` / `save`). -/
def mapAt {α : Type} (l : List (Id × α)) (i : Id) (f : α → α) : List (Id × α) :=
  mapWhere (fun kv => kv.1 = i) f l

def getUser (s : St) (i : Id) : Option UserRec := lookupA s.users i

def getChild (s : St) (i : Id) : Option ChildRec := lookupA s.children i

def getReq (s : St) (i : Id) : Option LinkReq := lookupA s.requests i

def updateUser (s : St) (i : Id) (f : UserRec → UserRec) : St :=
  { s with users := mapAt s.users i f }

def updateChild (s : St) (i : Id) (f : ChildRec → ChildRec) : St :=
  { s with children := mapAt s.children i f }

def updateReq (s : St) (i : Id) (f : LinkReq → LinkReq) : St :=
  { s with requests := mapAt s.requests i f }

/-- Mongo `$addToSet`: append only when absent. -/
def addToSet (l : List Id) (x : Id) : List Id :=
  if x ∈ l then l else l ++ [x]

/-- The `protect` + `authorize(role)` middleware pair: resolve the caller
from the database and require the stored role. -/
def requireRole (s : St) (callerId : Id) (role : Role) : Except Err UserRec :=
  match getUser s callerId with
  | Option.none => Except.error (Err.unauthorized "User not found")
  | some u =>
    if u.role = role then Except.ok u
    else Except.error (Err.forbidden "User role is not authorized to access this route")

/-- POST `/api/specialists/accept-child/:childId`. -/
def acceptChild (specId childId : Id) (s : St) : Except Err St := do
  let _spec ← requireRole s specId Role.specialist
  match getChild s childId with
  | Option.none => Except.error (Err.notFound "Child not found")
  | some child =>
    if child.specialistRequestStatus ≠ ReqStatus.pending then
      Except.error (Err.badRequest "No pending request for this child")
    else
      let s1 := updateChild s childId (fun c =>
        { c with assignedSpecialist := some specId,
                 specialistRequestStatus := ReqStatus.approved })
      let s2 := updateUser s1 specId (fun u =>
        { u with assignedChildren := addToSet u.assignedChildren childId })
      Except.ok s2

/-- POST `/api/specialists/reject-child/:childId`: sets the status to
`rejected` with no pending-check and no change to `assignedSpecialist`. -/
def rejectChild (specId childId : Id) (s : St) : Except Err St := do
  let _spec ← requireRole s specId Role.specialist
  match getChild s childId with
  | Option.none => Except.error (Err.notFound "Child not found")
  | some _child =>
    Except.ok (updateChild s childId (fun c =>
      { c with specialistRequestStatus := ReqStatus.rejected }))

/-- The reciprocal-edge write sequence shared by `link-parent` and
`accept-link-request`: `$addToSet` the parent into the specialist's
`linkedParents`, then set the parent's `linkedSpecialist`. -/
def linkEdge (s : St) (specId parentId : Id) : St :=
  let s1 := updateUser s specId (fun u =>
    { u with linkedParents := addToSet u.linkedParents parentId })
  updateUser s1 parentId (fun u => { u with linkedSpecialist := some specId })

/-- POST `/api/specialists/link-parent`. -/
def linkParent (specId parentId : Id) (s : St) : Except Err St := do
  let spec ← requireRole s specId Role.specialist
  match getUser s parentId with
  | Option.none => Except.error (Err.notFound "Parent not found")
  | some parent =>
    if parent.role ≠ Role.parent then Except.error (Err.notFound "Parent not found")
    else if parentId ∈ spec.linkedParents then
      Except.error (Err.badRequest "Parent already linked to this specialist")
    else
      Except.ok (linkEdge s specId parentId)

/-- DELETE `/api/specialists/unlink-parent/:parentId`: two unconditional
updates, no existence or current-link check. -/
def unlinkParent (specId parentId : Id) (s : St) : Except Err St := do
  let _spec ← requireRole s specId Role.specialist
  let s1 := updateUser s specId (fun u =>
    { u with linkedParents := u.linkedParents.filter (fun q => q ≠ parentId) })
  let s2 := updateUser s1 parentId (fun u => { u with linkedSpecialist := Option.none })
  Except.ok s2

/-- POST `/api/specialists/create-parent`. -/
def createParent (specId : Id) (name email password : String) (s : St) : Except Err St := do
  let _spec ← requireRole s specId Role.specialist
  if name = "" ∨ email = "" ∨ password = "" then
    Except.error (Err.badRequest "Name, email and password are required")
  else if s.users.any (fun kv => kv.2.email == jsToLower email) then
    Except.error (Err.badRequest "User with this email already exists")
  else
    let pid := s.nextId
    let parent : UserRec :=
      { role := Role.parent, email := jsToLower email, linkedSpecialist := some specId }
    let s1 : St := { s with users := s.users ++ [(pid, parent)], nextId := s.nextId + 1 }
    let s2 := updateUser s1 specId (fun u =>
      { u with linkedParents := addToSet u.linkedParents pid })
    Except.ok s2

/-- The success path of `accept-link-request`: mark the request accepted,
add the reciprocal edges, notify the parent, and cascade-reject every
other pending request from the same parent.  The child named by the
request is never read or written. -/
def acceptLinkRequestCore (specId reqId : Id) (request : LinkReq) (s : St) : St :=
  let s1 := updateReq s reqId (fun r => { r with status := LRStatus.accepted })
  let s2 := linkEdge s1 specId request.fromUser
  let s3 := { s2 with notifs := s2.notifs ++ [({ recipient := request.fromUser } : Notif)] }
  let cascaded := mapWhere
    (fun kv => kv.2.fromUser = request.fromUser ∧ kv.2.status = LRStatus.pending ∧ kv.1 ≠ reqId)
    (fun r => { r with status := LRStatus.rejected }) s3.requests
  { s3 with requests := cascaded }

/-- POST `/api/specialists/accept-link-request/:requestId`. -/
def acceptLinkRequest (specId reqId : Id) (s : St) : Except Err St := do
  let _spec ← requireRole s specId Role.specialist
  match getReq s reqId with
  | Option.none => Except.error (Err.notFound "Request not found")
  | some request =>
    if request.toUser ≠ specId then Except.error (Err.forbidden "Not authorized")
    else if request.status ≠ LRStatus.pending then
      Except.error (Err.badRequest "Request is no longer pending")
    else
      match getUser s request.fromUser with
      | Option.none => Except.error (Err.server "Cannot read properties of null")
      | some parent =>
        match parent.linkedSpecialist with
        | some other =>
          if other ≠ specId then
            Except.error (Err.badRequest "Parent is already linked to another specialist")
          else Except.ok (acceptLinkRequestCore specId reqId request s)
        | Option.none => Except.ok (acceptLinkRequestCore specId reqId request s)

/-- POST `/api/parents/send-link-request`. -/
def sendLinkRequest (parentId specId childId : Id) (message : String) (s : St) :
    Except Err St := do
  let _parent ← requireRole s parentId Role.parent
  match getUser s specId with
  | Option.none => Except.error (Err.notFound "Specialist not found")
  | some sp =>
    if sp.role ≠ Role.specialist then Except.error (Err.notFound "Specialist not found")
    else
      match getChild s childId with
      | Option.none => Except.error (Err.notFound "Child not found")
      | some child =>
        if child.parent ≠ parentId then Except.error (Err.notFound "Child not found")
        else if child.assignedSpecialist.isSome then
          Except.error (Err.badRequest "This child is already assigned to a specialist")
        else if s.requests.any (fun kv =>
            decide (kv.2.fromUser = parentId ∧ kv.2.toUser = specId ∧
                    kv.2.child = childId ∧ kv.2.status = LRStatus.pending)) then
          Except.error (Err.badRequest
            "You already have a pending request to this specialist for this child")
        else
          let rid := s.nextId
          let s1 : St := { s with
            requests := s.requests ++
              [(rid, { fromUser := parentId, toUser := specId, child := childId,
                       message := message })],
            nextId := s.nextId + 1 }
          Except.ok (updateChild s1 childId (fun c =>
            { c with specialistRequestStatus := ReqStatus.pending }))

/-- The children of `parentId` currently assigned to `specId`
(the `Child.find` at the start of `unlink-specialist`). -/
def affectedChildren (s : St) (parentId specId : Id) : List Id :=
  (s.children.filter (fun kv =>
    decide (kv.2.parent = parentId ∧ kv.2.assignedSpecialist = some specId))).map
    (fun kv => kv.1)

/-- DELETE `/api/parents/unlink-specialist`. -/
def unlinkSpecialist (parentId : Id) (s : St) : Except Err St := do
  let parent ← requireRole s parentId Role.parent
  match parent.linkedSpecialist with
  | Option.none => Except.error (Err.badRequest "You are not linked to any specialist")
  | some specId =>
    let childIds := affectedChildren s parentId specId
    let s1 := updateUser s parentId (fun u => { u with linkedSpecialist := Option.none })
    let s2 := updateUser s1 specId (fun u =>
      { u with linkedParents := u.linkedParents.filter (fun q => q ≠ parentId) })
    let s3 :=
      if childIds.isEmpty then s2
      else
        let detached := mapWhere (fun kv => kv.1 ∈ childIds)
          (fun c => { c with assignedSpecialist := Option.none,
                             specialistRequestStatus := ReqStatus.none }) s2.children
        let sa := { s2 with children := detached }
        updateUser sa specId (fun u =>
          { u with assignedChildren := u.assignedChildren.filter (fun c => c ∉ childIds) })
    Except.ok { s3 with notifs :=
      s3.notifs ++ [({ recipient := specId, childIds := childIds } : Notif)] }

/-- The per-child half of the spec's assignment invariant:
`assignedSpecialist != null  iff  specialistRequestStatus == approved`. -/
def childInvariant (c : ChildRec) : Bool :=
  c.assignedSpecialist.isSome == decide (c.specialistRequestStatus = ReqStatus.approved)

/-- One user's outgoing edge is reciprocated: if the user points at a
specialist, that specialist's `linkedParents` contains the user. -/
def pointsOkB (s : St) (pid : Id) (p : UserRec) : Bool :=
  match p.linkedSpecialist with
  | some sid =>
    match getUser s sid with
    | some sp => sp.linkedParents.contains pid
    | Option.none => false
  | Option.none => true

/-- One user's incoming edges are reciprocated: every parent listed in the
user's `linkedParents` points back at the user. -/
def holdsOkB (s : St) (pid : Id) (p : UserRec) : Bool :=
  p.linkedParents.all (fun q =>
    match getUser s q with
    | some qu => qu.linkedSpecialist == some pid
    | Option.none => false)

/-- Bidirectional consistency of the parent-specialist linkage graph:
every resolvable user's `linkedSpecialist` edge is reciprocated by the
target's `linkedParents`, and vice versa. -/
def consistent (s : St) : Bool :=
  s.users.all (fun kv =>
    match getUser s kv.1 with
    | some u => pointsOkB s kv.1 u && holdsOkB s kv.1 u
    | Option.none => true)

/-- Propositional form of `consistent`, used by the preservation proofs. -/
def Consistent (s : St) : Prop :=
  ∀ pid p, getUser s pid = some p →
    (∀ sid, p.linkedSpecialist = some sid →
       ∃ sp, getUser s sid = some sp ∧ pid ∈ sp.linkedParents) ∧
    (∀ q ∈ p.linkedParents,
       ∃ qu, getUser s q = some qu ∧ qu.linkedSpecialist = some pid)

/-- `contentType` of a nested content item. -/
inductive CType where
  | word | letter
deriving DecidableEq, Repr

/-- `contentItemSchema.difficulty` enum. -/
inductive Difficulty where
  | easy | medium | hard
deriving DecidableEq, Repr

/-- A nested content item (`contentItemSchema`), carrying its own `_id`. -/
structure ContentItem where
  id : Id
  text : String
  difficulty : Difficulty := Difficulty.easy
  image : String := "default-word.png"
  createdBy : Id
deriving DecidableEq, Repr

/-- An Exercise document with `kind = 'content'`: the single per-child
embedded store with its two sub-collections. -/
structure ContentDoc where
  id : Id
  child : Id
  contentWords : List ContentItem := []
  contentLetters : List ContentItem := []
deriving DecidableEq, Repr

/-- Persistent state seen by the content routes: the children collection,
the content-kind Exercise documents, and a fresh-id counter. -/
structure CSt where
  children : List (Id × ChildRec) := []
  docs : List ContentDoc := []
  nextId : Id := 1000
deriving DecidableEq, Repr

def getChildC (st : CSt) (i : Id) : Option ChildRec := lookupA st.children i

/-- `Exercise.findOne({ child, kind: 'content' })`. -/
def findContentDoc (st : CSt) (cid : Id) : Option ContentDoc :=
  st.docs.find? (fun d => d.child == cid)

/-- `getOrCreateContentDoc`: atomic find-or-insert of the per-child
content document (`findOneAndUpdate` with `upsert`). -/
def getOrCreateContentDoc (cid : Id) (st : CSt) : ContentDoc × CSt :=
  match findContentDoc st cid with
  | some d => (d, st)
  | Option.none =>
    let d : ContentDoc := { id := st.nextId, child := cid }
    (d, { st with docs := st.docs ++ [d], nextId := st.nextId + 1 })

/-- `doc.save()`: replace the stored document with the given one. -/
def saveDoc (st : CSt) (d : ContentDoc) : CSt :=
  { st with docs := st.docs.map (fun d0 => if d0.id == d.id then d else d0) }

/-- Whether either sub-collection of `d` contains an item with id `i`. -/
def hasItem (d : ContentDoc) (i : Id) : Bool :=
  d.contentWords.any (fun it => it.id == i) || d.contentLetters.any (fun it => it.id == i)

/-- The `$or` query locating the content document owning item `i`. -/
def findDocByItem (st : CSt) (i : Id) : Option ContentDoc :=
  st.docs.find? (fun d => hasItem d i)

def getDocById (st : CSt) (did : Id) : Option ContentDoc :=
  st.docs.find? (fun d => d.id == did)

/-- Remove item `i` from whichever sub-collection contains it
(the `wordItem.deleteOne() / letterItem.deleteOne()` pair). -/
def stripItem (d : ContentDoc) (i : Id) : ContentDoc :=
  { d with contentWords := d.contentWords.filter (fun it => it.id ≠ i),
           contentLetters := d.contentLetters.filter (fun it => it.id ≠ i) }

/-- The trim / get-or-create / duplicate-check / append sequence shared
verbatim by the three content-append handlers. -/
def contentAddCore (callerId : Id) (text : String) (ctype : CType)
    (difficulty : Option Difficulty) (image : String) (cid : Id) (st : CSt) :
    CSt × Except Err ContentItem :=
  let trimmed := jsTrim text
  let (doc, st1) := getOrCreateContentDoc cid st
  let targetArr := match ctype with
    | CType.word => doc.contentWords
    | CType.letter => doc.contentLetters
  if targetArr.any (fun i => i.text == trimmed) then
    (st1, Except.error (Err.badRequest
      ((match ctype with | CType.word => "Word" | CType.letter => "Letter") ++
        " already exists for this child")))
  else
    let created : ContentItem :=
      { id := st1.nextId, text := trimmed, difficulty := difficulty.getD Difficulty.easy,
        image := image, createdBy := callerId }
    let doc' := match ctype with
      | CType.word => { doc with contentWords := doc.contentWords ++ [created] }
      | CType.letter => { doc with contentLetters := doc.contentLetters ++ [created] }
    ({ saveDoc st1 doc' with nextId := st1.nextId + 1 }, Except.ok created)

/-- POST `/api/content/add` (length policy: letter ≤ 1, word ≤ 20). -/
def contentAdd (callerId : Id) (text : String) (ctype : CType)
    (difficulty : Option Difficulty) (cid : Id) (st : CSt) :
    CSt × Except Err ContentItem :=
  if text = "" then
    (st, Except.error (Err.badRequest "Text, content type, and child ID are required"))
  else if ctype = CType.letter ∧ text.length > 1 then
    (st, Except.error (Err.badRequest "Letter must be a single character"))
  else if ctype = CType.word ∧ text.length > 20 then
    (st, Except.error (Err.badRequest "Word must not exceed 20 characters"))
  else contentAddCore callerId text ctype difficulty "default-word.png" cid st

/-- POST `/api/specialist/content/add` (assignment check, then length
policy: letter ≤ 2, word ≤ 20).  A child with no `assignedSpecialist`
makes the handler throw (`.toString()` of null), surfaced as a 500. -/
def specialistContentAdd (callerId : Id) (text : String) (ctype : CType)
    (difficulty : Option Difficulty) (cid : Id) (st : CSt) :
    CSt × Except Err ContentItem :=
  if text = "" then
    (st, Except.error (Err.badRequest "Text, content type, and child ID are required"))
  else
    match getChildC st cid with
    | Option.none => (st, Except.error (Err.forbidden "Not authorized to add content for this child"))
    | some child =>
      match child.assignedSpecialist with
      | Option.none => (st, Except.error (Err.server "Cannot read properties of null"))
      | some sid =>
        if sid ≠ callerId then
          (st, Except.error (Err.forbidden "Not authorized to add content for this child"))
        else if ctype = CType.letter ∧ text.length > 2 then
          (st, Except.error (Err.badRequest "Letter with vowel must not exceed 2 characters"))
        else if ctype = CType.word ∧ text.length > 20 then
          (st, Except.error (Err.badRequest "Word must not exceed 20 characters"))
        else contentAddCore callerId text ctype difficulty "default-word.png" cid st

/-- POST `/api/words`: defaults the type to `word`, attaches the uploaded
image path, and performs no length validation at all. -/
def wordsCreate (callerId : Id) (text : String) (ctype : Option CType)
    (difficulty : Option Difficulty) (imagePath : Option String) (cid : Id) (st : CSt) :
    CSt × Except Err ContentItem :=
  if text = "" then
    (st, Except.error (Err.badRequest "Text and Child ID are required"))
  else
    contentAddCore callerId text (ctype.getD CType.word) difficulty
      (imagePath.getD "default-word.png") cid st

/-- DELETE `/api/content/delete/:contentId`: only a not-found check. -/
def contentDelete (_callerId : Id) (contentId : Id) (st : CSt) : CSt × Except Err Unit :=
  match findDocByItem st contentId with
  | Option.none => (st, Except.error (Err.notFound "Content not found"))
  | some doc => (saveDoc st (stripItem doc contentId), Except.ok ())

/-- DELETE `/api/words/:id`: identical logic, only a not-found check. -/
def wordsDelete (_callerId : Id) (contentId : Id) (st : CSt) : CSt × Except Err Unit :=
  match findDocByItem st contentId with
  | Option.none => (st, Except.error (Err.notFound "Word not found"))
  | some doc => (saveDoc st (stripItem doc contentId), Except.ok ())

/-- POST `/api/specialist/content/delete/:contentId`: additionally checks
that the owning child is assigned to the caller. -/
def specialistContentDelete (callerId : Id) (contentId : Id) (st : CSt) :
    CSt × Except Err Unit :=
  match findDocByItem st contentId with
  | Option.none => (st, Except.error (Err.notFound "Content not found"))
  | some doc =>
    match getChildC st doc.child with
    | Option.none => (st, Except.error (Err.forbidden "Not authorized to delete this content"))
    | some child =>
      match child.assignedSpecialist with
      | Option.none => (st, Except.error (Err.server "Cannot read properties of null"))
      | some sid =>
        if sid ≠ callerId then
          (st, Except.error (Err.forbidden "Not authorized to delete this content"))
        else (saveDoc st (stripItem doc contentId), Except.ok ())

/-- Per-document text uniqueness of both sub-collections. -/
def uniqueTexts (st : CSt) : Prop :=
  ∀ d ∈ st.docs, (d.contentWords.map (fun it => it.text)).Nodup ∧
                 (d.contentLetters.map (fun it => it.text)).Nodup

/-- An attempt inside a session (`attemptSchema`), reduced to the fields
the read paths use. -/
structure AttemptRec where
  timestamp : Option Nat := Option.none
  success : Bool := false
  score : Option ℚ := Option.none
deriving DecidableEq, Repr

/-- A session (`sessionSchema`); numeric fields are optional to model the
`(x || 0)` guards in the rollup. -/
structure SessionRec where
  duration : Option ℚ := Option.none
  totalAttempts : Option ℚ := Option.none
  successfulAttempts : Option ℚ := Option.none
  averageScore : Option ℚ := Option.none
  attempts : List AttemptRec := []
deriving DecidableEq, Repr

/-- The numeric `overallStats` fields recomputed by `updateOverallStats`. -/
structure OverallStats where
  totalSessions : Nat := 0
  totalPlayTime : ℚ := 0
  totalAttempts : ℚ := 0
  successRate : ℚ := 0
  averageScore : ℚ := 0
deriving DecidableEq, Repr

/-- A Progress document: one per child, sessions plus derived stats. -/
structure ProgressDoc where
  child : Id
  sessions : List SessionRec := []
  overallStats : OverallStats := {}
deriving DecidableEq, Repr

def sumDuration (sessions : List SessionRec) : ℚ :=
  sessions.foldl (fun sum s => sum + s.duration.getD 0) 0

def sumTotalAttempts (sessions : List SessionRec) : ℚ :=
  sessions.foldl (fun sum s => sum + s.totalAttempts.getD 0) 0

def sumSuccessfulAttempts (sessions : List SessionRec) : ℚ :=
  sessions.foldl (fun sum s => sum + s.successfulAttempts.getD 0) 0

def sumAverageScore (sessions : List SessionRec) : ℚ :=
  sessions.foldl (fun sum s => sum + s.averageScore.getD 0) 0

/-- `progressSchema.methods.updateOverallStats`. -/
def updateOverallStats (p : ProgressDoc) : ProgressDoc :=
  let totalAttempts := sumTotalAttempts p.sessions
  { p with overallStats := {
      totalSessions := p.sessions.length,
      totalPlayTime := sumDuration p.sessions,
      totalAttempts := totalAttempts,
      successRate :=
        if totalAttempts > 0 then (sumSuccessfulAttempts p.sessions / totalAttempts) * 100
        else 0,
      averageScore :=
        if p.sessions.length > 0 then sumAverageScore p.sessions / (p.sessions.length : ℚ)
        else 0 } }

/-- `Progress.findOne({ child: childId })`. -/
def findProgress (ps : List ProgressDoc) (cid : Id) : Option ProgressDoc :=
  ps.find? (fun p => p.child == cid)

/-- Persist a Progress document: replace in place, or insert if new. -/
def saveProgress (ps : List ProgressDoc) (p : ProgressDoc) : List ProgressDoc :=
  if ps.any (fun q => q.child == p.child) then
    ps.map (fun q => if q.child == p.child then p else q)
  else ps ++ [p]

/-- POST `/api/progress/session`: find-or-create, append one session,
recompute the rollup, save.  No Child lookup, no authorization check. -/
def progressSession (cid : Id) (sessionData : SessionRec) (ps : List ProgressDoc) :
    List ProgressDoc × Except Err ProgressDoc :=
  let prog := (findProgress ps cid).getD { child := cid }
  let prog1 := updateOverallStats { prog with sessions := prog.sessions ++ [sessionData] }
  (saveProgress ps prog1, Except.ok prog1)

/-- POST `/api/progress/sync`: find-or-create, append a batch of sessions,
recompute the rollup once, save.  No Child lookup before the mutation. -/
def progressSync (cid : Id) (sessions : List SessionRec) (ps : List ProgressDoc) :
    List ProgressDoc × Except Err ProgressDoc :=
  let prog := (findProgress ps cid).getD { child := cid }
  let prog1 := updateOverallStats { prog with sessions := prog.sessions ++ sessions }
  (saveProgress ps prog1, Except.ok prog1)

/-- Sort key for the flattened attempts view (`a.timestamp || 0`). -/
def attemptKey (a : AttemptRec) : Nat := a.timestamp.getD 0

def insertDesc (x : AttemptRec) : List AttemptRec → List AttemptRec
  | [] => [x]
  | y :: ys => if attemptKey y ≤ attemptKey x then x :: y :: ys else y :: insertDesc x ys

/-- Reverse-chronological sort of attempts by timestamp. -/
def sortDesc (l : List AttemptRec) : List AttemptRec := l.foldr insertDesc []

/-- The limit clamp in GET `/api/progress/attempts/:childId`:
`Number.isFinite(rawLimit) ? Math.min(Math.max(rawLimit, 1), 200) : 50`
(`Option.none` models a `parseInt` result of NaN). -/
def effectiveLimit (rawLimit : Option Int) : Nat :=
  match rawLimit with
  | some v => (min (max v 1) 200).toNat
  | Option.none => 50

/-- GET `/api/progress/attempts/:childId` (post-authorization body):
flatten all sessions' attempts, sort descending, take the clamped limit. -/
def attemptsRoute (ps : List ProgressDoc) (cid : Id) (rawLimit : Option Int) :
    List AttemptRec :=
  match findProgress ps cid with
  | Option.none => []
  | some p =>
    let attempts := (p.sessions.map (fun srec => srec.attempts)).flatten
    (sortDesc attempts).take (effectiveLimit rawLimit)

/-- The spec's formulas for the rollup (stated from the spec's words, to be
compared with the code's `updateOverallStats`): totals are the session
fold, `successRate = 100 × Σ successfulAttempts / Σ totalAttempts` (0 when
the denominator is 0), `averageScore = Σ averageScore / |sessions|` (0 when
there are no sessions). -/
def overallStatsSpec (p : ProgressDoc) : Prop :=
  p.overallStats.totalSessions = p.sessions.length ∧
  p.overallStats.totalPlayTime = sumDuration p.sessions ∧
  p.overallStats.totalAttempts = sumTotalAttempts p.sessions ∧
  p.overallStats.successRate =
    (if sumTotalAttempts p.sessions = 0 then 0
     else 100 * sumSuccessfulAttempts p.sessions / sumTotalAttempts p.sessions) ∧
  p.overallStats.averageScore =
    (if p.sessions.length = 0 then 0
     else sumAverageScore p.sessions / (p.sessions.length : ℚ))

/-! Concrete states used by the witness and counterexample theorems. -/

/-- Parent 1 with pending link requests 10 (to specialist 2) and 11 (to
specialist 5), both for the unassigned pending child 3. -/
def exAccept : St :=
  { users := [(1, { role := Role.parent }),
              (2, { role := Role.specialist }),
              (5, { role := Role.specialist })],
    children := [(3, { parent := 1, specialistRequestStatus := ReqStatus.pending })],
    requests := [(10, { fromUser := 1, toUser := 2, child := 3 }),
                 (11, { fromUser := 1, toUser := 5, child := 3 })] }

/-- Parent 1, specialist 2, pending child 3. -/
def exPending : St :=
  { users := [(1, { role := Role.parent }), (2, { role := Role.specialist })],
    children := [(3, { parent := 1, specialistRequestStatus := ReqStatus.pending })] }

/-- Parent 1 (unlinked) and specialist 2, no edges yet. -/
def exFree : St :=
  { users := [(1, { role := Role.parent }), (2, { role := Role.specialist })] }

/-- Parent 1 consistently linked to specialist 2; specialist 3 free. -/
def exLinked : St :=
  { users := [(1, { role := Role.parent, linkedSpecialist := some 2 }),
              (2, { role := Role.specialist, linkedParents := [1] }),
              (3, { role := Role.specialist })] }

/-- Parent 1 linked to specialist 2 with both children 11 and 12 assigned
to specialist 2 and approved. -/
def exFamily : St :=
  { users := [(1, { role := Role.parent, linkedSpecialist := some 2 }),
              (2, { role := Role.specialist, linkedParents := [1],
                    assignedChildren := [11, 12] })],
    children := [(11, { parent := 1, assignedSpecialist := some 2,
                        specialistRequestStatus := ReqStatus.approved }),
                 (12, { parent := 1, assignedSpecialist := some 2,
                        specialistRequestStatus := ReqStatus.approved })] }

/-- Content store: child 3 (assigned to specialist 2) already owns the
word item 60 with text "تفاحة"; child 4 is unassigned with no document. -/
def exCSt : CSt :=
  { children := [(3, { parent := 1, assignedSpecialist := some 2,
                       specialistRequestStatus := ReqStatus.approved }),
                 (4, { parent := 1 })],
    docs := [{ id := 50, child := 3,
               contentWords := [{ id := 60, text := "تفاحة", createdBy := 2 }] }] }

/-- A minimal single session payload. -/
def exSession1 : SessionRec := { duration := some 5 }

/-- Two sessions totalling 10 attempts, 7 of them successful. -/
def exSessions : List SessionRec :=
  [{ duration := some 5, totalAttempts := some 4, successfulAttempts := some 3,
     averageScore := some 80 },
   { duration := some 7, totalAttempts := some 6, successfulAttempts := some 4,
     averageScore := some 60 }]

/-- The Progress document resulting from appending `exSession1` to an
empty store. -/
def exProg1 : ProgressDoc := updateOverallStats { child := 3, sessions := [exSession1] }

/-- The Progress document resulting from syncing `exSessions` into an
empty store. -/
def exProg2 : ProgressDoc := updateOverallStats { child := 3, sessions := exSessions }

/-! ### Lemmas about the store primitives -/

theorem lookupA_mapWhere {α : Type} (P : Id × α → Prop) [DecidablePred P] (f : α → α)
    (l : List (Id × α)) (j : Id) :
    lookupA (mapWhere P f l) j =
      (lookupA l j).map (fun v => if P (j, v) then f v else v) := by
  induction l with
  | nil => rfl
  | cons kv t ih =>
    obtain ⟨k, v⟩ := kv
    by_cases hkj : k = j
    · subst hkj
      by_cases hP : P (k, v) <;> simp [mapWhere, lookupA, hP]
    · by_cases hP : P (k, v) <;> simp only [mapWhere, List.map_cons] at ih ⊢ <;>
        simp [lookupA, hP, hkj, ih]

theorem lookupA_mapAt {α : Type} (l : List (Id × α)) (i : Id) (f : α → α) (j : Id) :
    lookupA (mapAt l i f) j = if j = i then (lookupA l j).map f else lookupA l j := by
  rw [mapAt, lookupA_mapWhere]
  by_cases h : j = i
  · simp [h]
  · cases lookupA l j <;> simp [h]

theorem lookupA_append_single {α : Type} (l : List (Id × α)) (x : Id) (v : α) (j : Id) :
    lookupA (l ++ [(x, v)]) j =
      match lookupA l j with
      | some w => some w
      | Option.none => if x = j then some v else Option.none := by
  induction l with
  | nil => simp [lookupA]
  | cons kv t ih =>
    by_cases h : kv.1 = j <;> simp [lookupA, h, ih]

theorem lookupA_mem {α : Type} {l : List (Id × α)} {j : Id} {v : α}
    (h : lookupA l j = some v) : (j, v) ∈ l := by
  induction l with
  | nil => simp [lookupA] at h
  | cons kv t ih =>
    obtain ⟨a, b⟩ := kv
    by_cases hk : a = j
    · subst hk
      simp only [lookupA, if_pos] at h
      obtain rfl := Option.some.inj h
      exact List.mem_cons_self _ _
    · simp only [lookupA, if_neg hk] at h
      exact List.mem_cons_of_mem _ (ih h)

theorem getUser_updateUser (s : St) (i : Id) (f : UserRec → UserRec) (j : Id) :
    getUser (updateUser s i f) j = if j = i then (getUser s j).map f else getUser s j :=
  lookupA_mapAt s.users i f j

theorem getChild_updateChild (s : St) (i : Id) (f : ChildRec → ChildRec) (j : Id) :
    getChild (updateChild s i f) j = if j = i then (getChild s j).map f else getChild s j :=
  lookupA_mapAt s.children i f j

theorem getReq_updateReq (s : St) (i : Id) (f : LinkReq → LinkReq) (j : Id) :
    getReq (updateReq s i f) j = if j = i then (getReq s j).map f else getReq s j :=
  lookupA_mapAt s.requests i f j

theorem getUser_updateChild (s : St) (i : Id) (f : ChildRec → ChildRec) (j : Id) :
    getUser (updateChild s i f) j = getUser s j := rfl

theorem getUser_updateReq (s : St) (i : Id) (f : LinkReq → LinkReq) (j : Id) :
    getUser (updateReq s i f) j = getUser s j := rfl

theorem getChild_updateUser (s : St) (i : Id) (f : UserRec → UserRec) (j : Id) :
    getChild (updateUser s i f) j = getChild s j := rfl

theorem getChild_updateReq (s : St) (i : Id) (f : LinkReq → LinkReq) (j : Id) :
    getChild (updateReq s i f) j = getChild s j := rfl

theorem getReq_updateUser (s : St) (i : Id) (f : UserRec → UserRec) (j : Id) :
    getReq (updateUser s i f) j = getReq s j := rfl

theorem getReq_updateChild (s : St) (i : Id) (f : ChildRec → ChildRec) (j : Id) :
    getReq (updateChild s i f) j = getReq s j := rfl

theorem consistent_iff (s : St) : consistent s = true ↔ Consistent s := by
  unfold consistent Consistent
  rw [List.all_eq_true]
  constructor
  · intro h pid p hget
    have hmem := lookupA_mem hget
    have hh := h (pid, p) hmem
    simp only [hget] at hh
    rw [Bool.and_eq_true] at hh
    obtain ⟨h1, h2⟩ := hh
    constructor
    · intro sid hsid
      cases hgs : getUser s sid with
      | none => simp [pointsOkB, hsid, hgs] at h1
      | some sp =>
        refine ⟨sp, rfl, ?_⟩
        simp [pointsOkB, hsid, hgs] at h1
        exact h1
    · intro q hq
      unfold holdsOkB at h2
      rw [List.all_eq_true] at h2
      have hq2 := h2 q hq
      cases hgq : getUser s q with
      | none => simp [hgq] at hq2
      | some qu =>
        refine ⟨qu, rfl, ?_⟩
        simp [hgq] at hq2
        exact hq2
  · intro h kv hmem
    cases hget : getUser s kv.1 with
    | none => rfl
    | some u =>
      obtain ⟨h1, h2⟩ := h kv.1 u hget
      rw [Bool.and_eq_true]
      refine ⟨?_, ?_⟩
      · cases hls : u.linkedSpecialist with
        | none => simp [pointsOkB, hls]
        | some sid =>
          obtain ⟨sp, hgs, hmem'⟩ := h1 sid hls
          simp [pointsOkB, hls, hgs, hmem']
      · unfold holdsOkB
        rw [List.all_eq_true]
        intro q hq
        obtain ⟨qu, hgq, hlq⟩ := h2 q hq
        simp [hgq, hlq]

/-- A user update that touches neither `linkedSpecialist` nor
`linkedParents` preserves bidirectional consistency. -/
theorem Consistent_updateUser_preserve (s : St) (i : Id) (f : UserRec → UserRec)
    (hfls : ∀ u, (f u).linkedSpecialist = u.linkedSpecialist)
    (hflp : ∀ u, (f u).linkedParents = u.linkedParents)
    (hc : Consistent s) : Consistent (updateUser s i f) := by
  intro pid p hget
  rw [getUser_updateUser] at hget
  have key : ∃ v, getUser s pid = some v ∧
      p.linkedSpecialist = v.linkedSpecialist ∧ p.linkedParents = v.linkedParents := by
    by_cases h : pid = i
    · rw [if_pos h] at hget
      cases hv : getUser s pid with
      | none => rw [hv] at hget; simp at hget
      | some v =>
        rw [hv] at hget
        simp only [Option.map_some'] at hget
        obtain rfl := Option.some.inj hget
        exact ⟨v, rfl, hfls v, hflp v⟩
    · rw [if_neg h] at hget
      exact ⟨p, hget, rfl, rfl⟩
  obtain ⟨v, hv, hA, hB⟩ := key
  obtain ⟨h1, h2⟩ := hc pid v hv
  constructor
  · intro sid hsid
    rw [hA] at hsid
    obtain ⟨sp, hg2, hm⟩ := h1 sid hsid
    by_cases h3 : sid = i
    · refine ⟨f sp, ?_, ?_⟩
      · rw [getUser_updateUser, if_pos h3, hg2]
        rfl
      · rw [hflp]
        exact hm
    · exact ⟨sp, by rw [getUser_updateUser, if_neg h3]; exact hg2, hm⟩
  · intro q hq
    rw [hB] at hq
    obtain ⟨qu, hgq, hlq⟩ := h2 q hq
    by_cases h3 : q = i
    · refine ⟨f qu, ?_, ?_⟩
      · rw [getUser_updateUser, if_pos h3, hgq]
        rfl
      · rw [hfls]
        exact hlq
    · exact ⟨qu, by rw [getUser_updateUser, if_neg h3]; exact hgq, hlq⟩

theorem mapAt_comm {α : Type} (l : List (Id × α)) (i j : Id) (f g : α → α)
    (hco : ∀ v, f (g v) = g (f v)) :
    mapAt (mapAt l i f) j g = mapAt (mapAt l j g) i f := by
  unfold mapAt mapWhere
  rw [List.map_map, List.map_map]
  apply List.map_congr_left
  intro kv _
  obtain ⟨k, v⟩ := kv
  by_cases hi : k = i
  · subst hi
    by_cases hj : k = j
    · subst hj
      simp [hco]
    · simp [hj, hco]
  · by_cases hj : k = j
    · subst hj
      simp [hi]
    · simp [hi, hj]

theorem updateUser_comm (s : St) (i j : Id) (f g : UserRec → UserRec)
    (hco : ∀ v, f (g v) = g (f v)) :
    updateUser (updateUser s i f) j g = updateUser (updateUser s j g) i f := by
  unfold updateUser
  dsimp only
  rw [mapAt_comm _ _ _ _ _ hco]

theorem mem_addToSet_self (l : List Id) (x : Id) : x ∈ addToSet l x := by
  unfold addToSet
  split
  · assumption
  · exact List.mem_append.2 (Or.inr (List.mem_singleton.2 rfl))

theorem mem_addToSet_of_mem {l : List Id} {a : Id} (x : Id) (h : a ∈ l) :
    a ∈ addToSet l x := by
  unfold addToSet
  split
  · exact h
  · exact List.mem_append.2 (Or.inl h)

theorem mem_addToSet_iff {l : List Id} {a x : Id} :
    a ∈ addToSet l x ↔ a ∈ l ∨ a = x := by
  unfold addToSet
  split
  · constructor
    · exact Or.inl
    · rintro (h | rfl) <;> assumption
  · simp [List.mem_append]

theorem getUser_linkEdge (s : St) (specId parentId j : Id) :
    getUser (linkEdge s specId parentId) j =
      if j = parentId then
        (if j = specId
         then (getUser s j).map
           (fun u => { u with linkedParents := addToSet u.linkedParents parentId })
         else getUser s j).map (fun u => { u with linkedSpecialist := some specId })
      else
        (if j = specId
         then (getUser s j).map
           (fun u => { u with linkedParents := addToSet u.linkedParents parentId })
         else getUser s j) := by
  unfold linkEdge
  rw [getUser_updateUser]
  by_cases h1 : j = parentId
  · rw [if_pos h1, if_pos h1, getUser_updateUser]
  · rw [if_neg h1, if_neg h1, getUser_updateUser]

/-- Establishing the reciprocal edge preserves bidirectional consistency,
provided the parent is not currently linked to a different specialist. -/
theorem Consistent_linkEdge (s : St) (specId parentId : Id) (sp p : UserRec)
    (hc : Consistent s) (hsp : getUser s specId = some sp) (hp : getUser s parentId = some p)
    (hpls : p.linkedSpecialist = Option.none ∨ p.linkedSpecialist = some specId) :
    Consistent (linkEdge s specId parentId) := by
  intro pid0 p0 hget0
  rw [getUser_linkEdge] at hget0
  by_cases hP : pid0 = parentId
  · rw [if_pos hP] at hget0
    subst hP
    by_cases hS : pid0 = specId
    · -- the parent and the specialist are the same id
      rw [if_pos hS] at hget0
      subst hS
      rw [hp] at hget0
      simp only [Option.map_some'] at hget0
      obtain rfl := Option.some.inj hget0
      have hgSelf : getUser (linkEdge s pid0 pid0) pid0 =
          some { { p with linkedParents := addToSet p.linkedParents pid0 } with
                 linkedSpecialist := some pid0 } := by
        rw [getUser_linkEdge, if_pos rfl, if_pos rfl, hp]
        rfl
      constructor
      · intro sid hsid
        have hsid' : (some pid0 : Option Id) = some sid := hsid
        obtain rfl := Option.some.inj hsid'
        exact ⟨_, hgSelf, (mem_addToSet_self p.linkedParents pid0 :
          pid0 ∈ addToSet p.linkedParents pid0)⟩
      · intro q hq
        have hq' : q ∈ addToSet p.linkedParents pid0 := hq
        by_cases hqp : q = pid0
        · subst hqp
          exact ⟨_, hgSelf, rfl⟩
        · rcases mem_addToSet_iff.mp hq' with hq2 | hq2
          · obtain ⟨qu, hgq, hlq⟩ := (hc pid0 p hp).2 q hq2
            exact ⟨qu, by rw [getUser_linkEdge, if_neg hqp, if_neg hqp]; exact hgq, hlq⟩
          · exact absurd hq2 hqp
    · -- pid0 = parentId, distinct from specId
      rw [if_neg hS] at hget0
      rw [hp] at hget0
      simp only [Option.map_some'] at hget0
      obtain rfl := Option.some.inj hget0
      have hSpid : ¬(specId = pid0) := fun h => hS h.symm
      have hgP : getUser (linkEdge s specId pid0) pid0 =
          some { p with linkedSpecialist := some specId } := by
        rw [getUser_linkEdge, if_pos rfl, if_neg hS, hp]
        rfl
      have hgS : getUser (linkEdge s specId pid0) specId =
          some { sp with linkedParents := addToSet sp.linkedParents pid0 } := by
        rw [getUser_linkEdge, if_neg hSpid, if_pos rfl, hsp]
        rfl
      constructor
      · intro sid hsid
        have hsid' : (some specId : Option Id) = some sid := hsid
        obtain rfl := (Option.some.inj hsid').symm
        exact ⟨_, hgS, (mem_addToSet_self sp.linkedParents pid0 :
          pid0 ∈ addToSet sp.linkedParents pid0)⟩
      · intro q hq
        have hq' : q ∈ p.linkedParents := hq
        obtain ⟨qu, hgq, hlq⟩ := (hc pid0 p hp).2 q hq'
        by_cases hq1 : q = pid0
        · subst hq1
          rw [hp] at hgq
          obtain rfl := Option.some.inj hgq
          rcases hpls with h | h
          · rw [hlq] at h
            cases h
          · rw [hlq] at h
            obtain rfl := Option.some.inj h
            exact absurd rfl hS
        · by_cases hq2 : q = specId
          · subst hq2
            rw [hsp] at hgq
            obtain rfl := Option.some.inj hgq
            exact ⟨_, hgS, hlq⟩
          · exact ⟨qu, by rw [getUser_linkEdge, if_neg hq1, if_neg hq2]; exact hgq, hlq⟩
  · rw [if_neg hP] at hget0
    by_cases hS : pid0 = specId
    · -- pid0 = specId, distinct from parentId
      rw [if_pos hS] at hget0
      subst hS
      rw [hsp] at hget0
      simp only [Option.map_some'] at hget0
      obtain rfl := Option.some.inj hget0
      have hPpid : ¬(parentId = pid0) := fun h => hP h.symm
      have hgS : getUser (linkEdge s pid0 parentId) pid0 =
          some { sp with linkedParents := addToSet sp.linkedParents parentId } := by
        rw [getUser_linkEdge, if_neg hP, if_pos rfl, hsp]
        rfl
      have hgP : getUser (linkEdge s pid0 parentId) parentId =
          some { p with linkedSpecialist := some pid0 } := by
        rw [getUser_linkEdge, if_pos rfl, if_neg hPpid, hp]
        rfl
      constructor
      · intro sid hsid
        have hsid' : sp.linkedSpecialist = some sid := hsid
        obtain ⟨spv, hg2, hm⟩ := (hc pid0 sp hsp).1 sid hsid'
        by_cases h1 : sid = parentId
        · subst h1
          rw [hp] at hg2
          obtain rfl := Option.some.inj hg2
          exact ⟨_, hgP, hm⟩
        · by_cases h2 : sid = pid0
          · subst h2
            rw [hsp] at hg2
            obtain rfl := Option.some.inj hg2
            exact ⟨_, hgS, mem_addToSet_of_mem parentId hm⟩
          · exact ⟨spv, by rw [getUser_linkEdge, if_neg h1, if_neg h2]; exact hg2, hm⟩
      · intro q hq
        have hq' : q ∈ addToSet sp.linkedParents parentId := hq
        rcases mem_addToSet_iff.mp hq' with hq2 | hq2
        · obtain ⟨qu, hgq, hlq⟩ := (hc pid0 sp hsp).2 q hq2
          by_cases h1 : q = parentId
          · subst h1
            exact ⟨_, hgP, rfl⟩
          · by_cases h2 : q = pid0
            · subst h2
              rw [hsp] at hgq
              obtain rfl := Option.some.inj hgq
              exact ⟨_, hgS, hlq⟩
            · exact ⟨qu, by rw [getUser_linkEdge, if_neg h1, if_neg h2]; exact hgq, hlq⟩
        · subst hq2
          exact ⟨_, hgP, rfl⟩
    · -- pid0 is neither endpoint
      rw [if_neg hS] at hget0
      constructor
      · intro sid hsid
        obtain ⟨spv, hg2, hm⟩ := (hc pid0 p0 hget0).1 sid hsid
        by_cases h1 : sid = parentId
        · subst h1
          rw [hp] at hg2
          obtain rfl := Option.some.inj hg2
          by_cases h2 : sid = specId
          · subst h2
            refine ⟨{ { p with linkedParents := addToSet p.linkedParents sid } with linkedSpecialist := some sid }, ?_, ?_⟩
            · rw [getUser_linkEdge, if_pos rfl, if_pos rfl, hp]
              rfl
            · exact mem_addToSet_of_mem sid hm
          · refine ⟨{ p with linkedSpecialist := some specId }, ?_, ?_⟩
            · rw [getUser_linkEdge, if_pos rfl, if_neg h2, hp]
              rfl
            · exact hm
        · by_cases h2 : sid = specId
          · subst h2
            rw [hsp] at hg2
            obtain rfl := Option.some.inj hg2
            refine ⟨{ sp with linkedParents := addToSet sp.linkedParents parentId }, ?_, ?_⟩
            · rw [getUser_linkEdge, if_neg h1, if_pos rfl, hsp]
              rfl
            · exact mem_addToSet_of_mem parentId hm
          · exact ⟨spv, by rw [getUser_linkEdge, if_neg h1, if_neg h2]; exact hg2, hm⟩
      · intro q hq
        obtain ⟨qu, hgq, hlq⟩ := (hc pid0 p0 hget0).2 q hq
        by_cases h1 : q = parentId
        · subst h1
          rw [hp] at hgq
          obtain rfl := Option.some.inj hgq
          rcases hpls with h | h
          · rw [hlq] at h
            cases h
          · rw [hlq] at h
            obtain rfl := Option.some.inj h
            exact absurd rfl hS
        · by_cases h2 : q = specId
          · subst h2
            rw [hsp] at hgq
            obtain rfl := Option.some.inj hgq
            refine ⟨{ sp with linkedParents := addToSet sp.linkedParents parentId }, ?_, ?_⟩
            · rw [getUser_linkEdge, if_neg h1, if_pos rfl, hsp]
              rfl
            · exact hlq
          · exact ⟨qu, by rw [getUser_linkEdge, if_neg h1, if_neg h2]; exact hgq, hlq⟩

theorem mem_filter_ne {l : List Id} {a x : Id} :
    a ∈ l.filter (fun q => q ≠ x) ↔ a ∈ l ∧ a ≠ x := by
  simp [List.mem_filter]

theorem getUser_unlinkEdge (s : St) (specId parentId j : Id) :
    getUser (updateUser (updateUser s parentId
        (fun u => { u with linkedSpecialist := Option.none })) specId
        (fun u => { u with linkedParents := u.linkedParents.filter (fun q => q ≠ parentId) })) j =
      if j = specId then
        (if j = parentId
         then (getUser s j).map (fun u => { u with linkedSpecialist := Option.none })
         else getUser s j).map
          (fun u => { u with linkedParents := u.linkedParents.filter (fun q => q ≠ parentId) })
      else
        (if j = parentId
         then (getUser s j).map (fun u => { u with linkedSpecialist := Option.none })
         else getUser s j) := by
  rw [getUser_updateUser]
  by_cases h1 : j = specId
  · rw [if_pos h1, if_pos h1, getUser_updateUser]
  · rw [if_neg h1, if_neg h1, getUser_updateUser]

/-- Severing the reciprocal edge (parent side first, as in
unlink-specialist) preserves bidirectional consistency, provided the
parent is not linked to a *different* specialist than the one being
cleared on the other side. -/
theorem Consistent_unlinkEdge (s : St) (specId parentId : Id) (p : UserRec)
    (hc : Consistent s) (hp : getUser s parentId = some p)
    (hpls : p.linkedSpecialist = Option.none ∨ p.linkedSpecialist = some specId) :
    Consistent (updateUser (updateUser s parentId
        (fun u => { u with linkedSpecialist := Option.none })) specId
        (fun u => { u with linkedParents := u.linkedParents.filter (fun q => q ≠ parentId) })) := by
  intro pid0 p0 hget0
  rw [getUser_unlinkEdge] at hget0
  by_cases hS : pid0 = specId
  · rw [if_pos hS] at hget0
    subst hS
    by_cases hP : pid0 = parentId
    · -- the parent and the specialist are the same id
      rw [if_pos hP] at hget0
      subst hP
      rw [hp] at hget0
      simp only [Option.map_some'] at hget0
      obtain rfl := Option.some.inj hget0
      constructor
      · intro sid hsid
        have hsid' : (Option.none : Option Id) = some sid := hsid
        exact Option.noConfusion hsid'
      · intro q hq
        have hq' : q ∈ p.linkedParents.filter (fun r => r ≠ pid0) := hq
        obtain ⟨hq1, hq2⟩ := mem_filter_ne.mp hq'
        obtain ⟨qu, hgq, hlq⟩ := (hc pid0 p hp).2 q hq1
        exact ⟨qu, by rw [getUser_unlinkEdge, if_neg hq2, if_neg hq2]; exact hgq, hlq⟩
    · -- pid0 = specId, distinct from parentId
      rw [if_neg hP] at hget0
      cases hsp0 : getUser s pid0 with
      | none =>
        rw [hsp0] at hget0
        simp only [Option.map_none'] at hget0
        exact Option.noConfusion hget0
      | some sp =>
        rw [hsp0] at hget0
        simp only [Option.map_some'] at hget0
        obtain rfl := Option.some.inj hget0
        have hgS : getUser (updateUser (updateUser s parentId
            (fun u => { u with linkedSpecialist := Option.none })) pid0
            (fun u => { u with linkedParents := u.linkedParents.filter (fun q => q ≠ parentId) })) pid0 =
            some { sp with linkedParents := sp.linkedParents.filter (fun r => r ≠ parentId) } := by
          rw [getUser_unlinkEdge, if_pos rfl, if_neg hP, hsp0]
          rfl
        constructor
        · intro sid hsid
          have hsid' : sp.linkedSpecialist = some sid := hsid
          obtain ⟨spv, hg2, hm⟩ := (hc pid0 sp hsp0).1 sid hsid'
          by_cases h1 : sid = pid0
          · rw [h1] at hg2
            rw [hsp0] at hg2
            obtain rfl := Option.some.inj hg2
            rw [h1]
            exact ⟨_, hgS, mem_filter_ne.mpr ⟨hm, hP⟩⟩
          · by_cases h2 : sid = parentId
            · rw [h2] at hg2
              rw [h2]
              refine ⟨{ spv with linkedSpecialist := Option.none }, ?_, ?_⟩
              · rw [getUser_unlinkEdge, if_neg (fun h => hP h.symm), if_pos rfl, hg2]
                rfl
              · exact hm
            · exact ⟨spv, by rw [getUser_unlinkEdge, if_neg h1, if_neg h2]; exact hg2, hm⟩
        · intro q hq
          have hq' : q ∈ sp.linkedParents.filter (fun r => r ≠ parentId) := hq
          obtain ⟨hq1, hq2⟩ := mem_filter_ne.mp hq'
          obtain ⟨qu, hgq, hlq⟩ := (hc pid0 sp hsp0).2 q hq1
          by_cases h1 : q = pid0
          · rw [h1] at hgq
            rw [hsp0] at hgq
            obtain rfl := Option.some.inj hgq
            rw [h1]
            exact ⟨_, hgS, hlq⟩
          · exact ⟨qu, by rw [getUser_unlinkEdge, if_neg h1, if_neg hq2]; exact hgq, hlq⟩
  · rw [if_neg hS] at hget0
    by_cases hP : pid0 = parentId
    · -- pid0 = parentId, distinct from specId
      rw [if_pos hP] at hget0
      subst hP
      rw [hp] at hget0
      simp only [Option.map_some'] at hget0
      obtain rfl := Option.some.inj hget0
      constructor
      · intro sid hsid
        have hsid' : (Option.none : Option Id) = some sid := hsid
        exact Option.noConfusion hsid'
      · intro q hq
        have hq' : q ∈ p.linkedParents := hq
        obtain ⟨qu, hgq, hlq⟩ := (hc pid0 p hp).2 q hq'
        by_cases h1 : q = pid0
        · rw [h1] at hgq
          rw [hp] at hgq
          obtain rfl := Option.some.inj hgq
          rcases hpls with h | h
          · rw [hlq] at h
            exact Option.noConfusion h
          · rw [hlq] at h
            exact absurd (Option.some.inj h) hS
        · by_cases h2 : q = specId
          · rw [h2] at hgq
            rw [h2]
            refine ⟨{ qu with linkedParents := qu.linkedParents.filter (fun r => r ≠ pid0) }, ?_, ?_⟩
            · rw [getUser_unlinkEdge, if_pos rfl, if_neg (fun h => hS h.symm), hgq]
              rfl
            · exact hlq
          · exact ⟨qu, by rw [getUser_unlinkEdge, if_neg h2, if_neg h1]; exact hgq, hlq⟩
    · -- pid0 is neither endpoint
      rw [if_neg hP] at hget0
      constructor
      · intro sid hsid
        obtain ⟨spv, hg2, hm⟩ := (hc pid0 p0 hget0).1 sid hsid
        by_cases h1 : sid = specId
        · by_cases h2 : sid = parentId
          · rw [h2] at hg2
            have heq : specId = parentId := h1.symm.trans h2
            rw [h1, heq]
            refine ⟨{ { spv with linkedSpecialist := Option.none } with linkedParents := spv.linkedParents.filter (fun r => r ≠ parentId) }, ?_, ?_⟩
            · rw [getUser_unlinkEdge, if_pos rfl, if_pos rfl, hg2]
              rfl
            · exact mem_filter_ne.mpr ⟨hm, hP⟩
          · rw [h1] at hg2
            rw [h1]
            refine ⟨{ spv with linkedParents := spv.linkedParents.filter (fun r => r ≠ parentId) }, ?_, ?_⟩
            · rw [getUser_unlinkEdge, if_pos rfl, if_neg (fun h => h2 (h1.trans h)), hg2]
              rfl
            · exact mem_filter_ne.mpr ⟨hm, hP⟩
        · by_cases h2 : sid = parentId
          · rw [h2] at hg2
            rw [h2]
            refine ⟨{ spv with linkedSpecialist := Option.none }, ?_, ?_⟩
            · rw [getUser_unlinkEdge, if_neg (fun h => h1 (h2.trans h)), if_pos rfl, hg2]
              rfl
            · exact hm
          · exact ⟨spv, by rw [getUser_unlinkEdge, if_neg h1, if_neg h2]; exact hg2, hm⟩
      · intro q hq
        obtain ⟨qu, hgq, hlq⟩ := (hc pid0 p0 hget0).2 q hq
        by_cases h1 : q = parentId
        · rw [h1] at hgq
          rw [hp] at hgq
          obtain rfl := Option.some.inj hgq
          rcases hpls with h | h
          · rw [hlq] at h
            exact Option.noConfusion h
          · rw [hlq] at h
            exact absurd (Option.some.inj h) hS
        · by_cases h2 : q = specId
          · rw [h2] at hgq
            rw [h2]
            refine ⟨{ qu with linkedParents := qu.linkedParents.filter (fun r => r ≠ parentId) }, ?_, ?_⟩
            · rw [getUser_unlinkEdge, if_pos rfl, if_neg (fun h => h1 (h2.trans h)), hgq]
              rfl
            · exact hlq
          · exact ⟨qu, by rw [getUser_unlinkEdge, if_neg h2, if_neg h1]; exact hgq, hlq⟩

/-- Appending a fresh parent that points at an existing specialist and
then `$addToSet`-ing it into that specialist's `linkedParents` (the
create-parent success path) preserves bidirectional consistency. -/
theorem Consistent_appendLink (s : St) (specId pid : Id) (sp parent : UserRec)
    (hc : Consistent s) (hsp : getUser s specId = some sp)
    (hfresh : getUser s pid = Option.none)
    (hls : parent.linkedSpecialist = some specId)
    (hlp : parent.linkedParents = []) :
    Consistent (updateUser
      { s with users := s.users ++ [(pid, parent)], nextId := s.nextId + 1 } specId
      (fun u => { u with linkedParents := addToSet u.linkedParents pid })) := by
  have hps : ¬(pid = specId) := by
    intro h
    rw [h, hsp] at hfresh
    exact Option.noConfusion hfresh
  have hg1some : ∀ j w, getUser s j = some w →
      getUser { s with users := s.users ++ [(pid, parent)], nextId := s.nextId + 1 } j = some w := by
    intro j w h
    show lookupA (s.users ++ [(pid, parent)]) j = some w
    rw [lookupA_append_single, show lookupA s.users j = some w from h]
  have hg1none : ∀ j, getUser s j = Option.none →
      getUser { s with users := s.users ++ [(pid, parent)], nextId := s.nextId + 1 } j =
        (if pid = j then some parent else Option.none) := by
    intro j h
    show lookupA (s.users ++ [(pid, parent)]) j = _
    rw [lookupA_append_single, show lookupA s.users j = Option.none from h]
  have hgS : getUser (updateUser { s with users := s.users ++ [(pid, parent)], nextId := s.nextId + 1 } specId (fun u => { u with linkedParents := addToSet u.linkedParents pid })) specId = some { sp with linkedParents := addToSet sp.linkedParents pid } := by
    rw [getUser_updateUser, if_pos rfl, hg1some specId sp hsp]
    rfl
  have hgP : getUser (updateUser { s with users := s.users ++ [(pid, parent)], nextId := s.nextId + 1 } specId (fun u => { u with linkedParents := addToSet u.linkedParents pid })) pid = some parent := by
    rw [getUser_updateUser, if_neg hps, hg1none pid hfresh, if_pos rfl]
  have hgO : ∀ j, ¬(j = specId) → ¬(j = pid) → getUser (updateUser { s with users := s.users ++ [(pid, parent)], nextId := s.nextId + 1 } specId (fun u => { u with linkedParents := addToSet u.linkedParents pid })) j = getUser s j := by
    intro j h1 h2
    rw [getUser_updateUser, if_neg h1]
    cases hgj : getUser s j with
    | none => rw [hg1none j hgj, if_neg (fun h => h2 h.symm)]
    | some w => rw [hg1some j w hgj]
  intro pid0 p0 hget0
  rw [getUser_updateUser] at hget0
  by_cases hS : pid0 = specId
  · subst hS
    rw [if_pos rfl, hg1some pid0 sp hsp] at hget0
    obtain rfl := Option.some.inj
      (show some { sp with linkedParents := addToSet sp.linkedParents pid } = some p0 from hget0)
    constructor
    · intro sid hsid
      have hsid' : sp.linkedSpecialist = some sid := hsid
      obtain ⟨spv, hg2, hm⟩ := (hc pid0 sp hsp).1 sid hsid'
      by_cases h1 : sid = pid0
      · rw [h1] at hg2
        rw [hsp] at hg2
        obtain rfl := Option.some.inj hg2
        rw [h1]
        exact ⟨_, hgS, mem_addToSet_of_mem pid hm⟩
      · by_cases h2 : sid = pid
        · rw [h2, hfresh] at hg2
          exact Option.noConfusion hg2
        · exact ⟨spv, by rw [hgO sid h1 h2]; exact hg2, hm⟩
    · intro q hq
      have hq' : q ∈ addToSet sp.linkedParents pid := hq
      rcases mem_addToSet_iff.mp hq' with hq2 | hq2
      · obtain ⟨qu, hgq, hlq⟩ := (hc pid0 sp hsp).2 q hq2
        by_cases h1 : q = pid0
        · rw [h1] at hgq
          rw [hsp] at hgq
          obtain rfl := Option.some.inj hgq
          rw [h1]
          exact ⟨_, hgS, hlq⟩
        · by_cases h2 : q = pid
          · rw [h2, hfresh] at hgq
            exact Option.noConfusion hgq
          · exact ⟨qu, by rw [hgO q h1 h2]; exact hgq, hlq⟩
      · rw [hq2]
        exact ⟨parent, hgP, hls⟩
  · rw [if_neg hS] at hget0
    by_cases hP : pid0 = pid
    · subst hP
      rw [hg1none pid0 hfresh, if_pos rfl] at hget0
      obtain rfl := Option.some.inj (show some parent = some p0 from hget0)
      constructor
      · intro sid hsid
        rw [hls] at hsid
        obtain rfl := Option.some.inj hsid
        exact ⟨_, hgS, (mem_addToSet_self sp.linkedParents pid0 :
          pid0 ∈ addToSet sp.linkedParents pid0)⟩
      · intro q hq
        rw [hlp] at hq
        exact absurd hq (List.not_mem_nil q)
    · cases hg0 : getUser s pid0 with
      | none =>
        rw [hg1none pid0 hg0, if_neg (fun h => hP h.symm)] at hget0
        exact Option.noConfusion hget0
      | some w =>
        rw [hg1some pid0 w hg0] at hget0
        obtain rfl := Option.some.inj (show some w = some p0 from hget0)
        constructor
        · intro sid hsid
          obtain ⟨spv, hg2, hm⟩ := (hc pid0 w hg0).1 sid hsid
          by_cases h1 : sid = specId
          · rw [h1] at hg2
            rw [hsp] at hg2
            obtain rfl := Option.some.inj hg2
            rw [h1]
            exact ⟨_, hgS, mem_addToSet_of_mem pid hm⟩
          · by_cases h2 : sid = pid
            · rw [h2, hfresh] at hg2
              exact Option.noConfusion hg2
            · exact ⟨spv, by rw [hgO sid h1 h2]; exact hg2, hm⟩
        · intro q hq
          obtain ⟨qu, hgq, hlq⟩ := (hc pid0 w hg0).2 q hq
          by_cases h1 : q = specId
          · rw [h1] at hgq
            rw [hsp] at hgq
            obtain rfl := Option.some.inj hgq
            rw [h1]
            exact ⟨_, hgS, hlq⟩
          · by_cases h2 : q = pid
            · rw [h2, hfresh] at hgq
              exact Option.noConfusion hgq
            · exact ⟨qu, by rw [hgO q h1 h2]; exact hgq, hlq⟩

/-- `Consistent` only reads the users collection: it transports across
any two states with the same `users` list. -/
theorem Consistent_usersEq (s t : St) (h : t.users = s.users) (hc : Consistent s) :
    Consistent t := by
  intro pid p hg
  have hg' : getUser s pid = some p := by
    show lookupA s.users pid = some p
    rw [← h]
    exact hg
  obtain ⟨A, B⟩ := hc pid p hg'
  constructor
  · intro sid hs
    obtain ⟨sp, h1, h2⟩ := A sid hs
    refine ⟨sp, ?_, h2⟩
    show lookupA t.users sid = some sp
    rw [h]
    exact h1
  · intro q hq
    obtain ⟨qu, h1, h2⟩ := B q hq
    refine ⟨qu, ?_, h2⟩
    show lookupA t.users q = some qu
    rw [h]
    exact h1

/-- Combined transport: a state whose users are `mapAt` of a consistent
state's users under a link-preserving update is itself consistent. -/
theorem Consistent_usersMapAt (s t : St) (i : Id) (f : UserRec → UserRec)
    (hfls : ∀ u, (f u).linkedSpecialist = u.linkedSpecialist)
    (hflp : ∀ u, (f u).linkedParents = u.linkedParents)
    (h : t.users = mapAt s.users i f) (hc : Consistent s) : Consistent t :=
  Consistent_usersEq (updateUser s i f) t h
    (Consistent_updateUser_preserve s i f hfls hflp hc)

theorem mem_affectedChildren {s : St} {parentId specId cid : Id} {c : ChildRec}
    (h : getChild s cid = some c) (hp : c.parent = parentId)
    (ha : c.assignedSpecialist = some specId) :
    cid ∈ affectedChildren s parentId specId := by
  unfold affectedChildren
  have hmem : (cid, c) ∈ s.children := lookupA_mem h
  exact List.mem_map.2 ⟨(cid, c), List.mem_filter.2 ⟨hmem, by simp [hp, ha]⟩, rfl⟩

/-! ### Progress ledger lemmas -/

theorem length_insertDesc (x : AttemptRec) (l : List AttemptRec) :
    (insertDesc x l).length = l.length + 1 := by
  induction l with
  | nil => rfl
  | cons y ys ih =>
    unfold insertDesc
    split
    · simp
    · simp [ih]

theorem length_sortDesc (l : List AttemptRec) : (sortDesc l).length = l.length := by
  induction l with
  | nil => rfl
  | cons y ys ih => simp [sortDesc, List.foldr_cons, length_insertDesc] at ih ⊢; exact ih

theorem attemptsRoute_length_le (ps : List ProgressDoc) (cid : Id) (raw : Option Int) :
    (attemptsRoute ps cid raw).length ≤ effectiveLimit raw := by
  unfold attemptsRoute
  cases findProgress ps cid with
  | none => simp
  | some p =>
    calc (((sortDesc _).take (effectiveLimit raw)).length)
        ≤ effectiveLimit raw := List.length_take_le _ _

theorem saveProgress_new (ps : List ProgressDoc) (p : ProgressDoc)
    (h : findProgress ps p.child = Option.none) : saveProgress ps p = ps ++ [p] := by
  have hany : (ps.any fun q => q.child == p.child) = false := by
    rw [List.any_eq_false]
    intro q hq
    simpa using List.find?_eq_none.mp h q hq
  unfold saveProgress
  rw [hany]
  simp

theorem overallStatsSpec_update (q : ProgressDoc) (h : 0 ≤ sumTotalAttempts q.sessions) :
    overallStatsSpec (updateOverallStats q) := by
  unfold overallStatsSpec updateOverallStats
  dsimp only
  refine ⟨rfl, rfl, rfl, ?_, ?_⟩
  · by_cases ht : sumTotalAttempts q.sessions = 0
    · simp [ht]
    · have hpos : 0 < sumTotalAttempts q.sessions := lt_of_le_of_ne h (Ne.symm ht)
      rw [if_pos hpos, if_neg ht]
      ring
  · by_cases hl : q.sessions.length = 0
    · simp [hl]
    · have hpos : 0 < q.sessions.length := Nat.pos_of_ne_zero hl
      rw [if_pos hpos, if_neg hl]

/-! ### Claim theorems -/

/-- C8: the attempts read endpoint clamps the caller-supplied limit to
[1, 200] with default 50: `limit=500` yields at most 200 attempts, and
`limit=0` (which clamps to 1) or a non-numeric limit (default 50) yields
at most 50 attempts. -/
theorem attemptsLimit_clamp :
    effectiveLimit Option.none = 50 ∧
    effectiveLimit (some 500) = 200 ∧
    effectiveLimit (some 0) = 1 ∧
    (∀ v : Int, 1 ≤ effectiveLimit (some v) ∧ effectiveLimit (some v) ≤ 200) ∧
    (∀ ps cid, (attemptsRoute ps cid (some 500)).length ≤ 200) ∧
    (∀ ps cid, (attemptsRoute ps cid (some 0)).length ≤ 50) ∧
    (∀ ps cid, (attemptsRoute ps cid Option.none).length ≤ 50) := by
  refine ⟨rfl, by decide, by decide, ?_, ?_, ?_, ?_⟩
  · intro v
    simp only [effectiveLimit]
    constructor <;> omega
  · intro ps cid
    calc (attemptsRoute ps cid (some 500)).length
        ≤ effectiveLimit (some 500) := attemptsRoute_length_le ps cid _
      _ ≤ 200 := by decide
  · intro ps cid
    calc (attemptsRoute ps cid (some 0)).length
        ≤ effectiveLimit (some 0) := attemptsRoute_length_le ps cid _
      _ ≤ 50 := by decide
  · intro ps cid
    calc (attemptsRoute ps cid Option.none).length
        ≤ effectiveLimit Option.none := attemptsRoute_length_le ps cid _
      _ ≤ 50 := by decide

/-- C5: after a single-session append or a sync batch, the recomputed
`overallStats` satisfies the spec's fold formulas (given the sessions'
total-attempt sum is non-negative, as all real payloads are), and
7 successful of 10 total attempts yields `successRate = 70`. -/
theorem overallStats_fold (cid : Id) (sd : SessionRec) (batch : List SessionRec)
    (ps : List ProgressDoc) (p1 p2 : ProgressDoc)
    (h1 : (progressSession cid sd ps).2 = Except.ok p1)
    (h2 : (progressSync cid batch ps).2 = Except.ok p2)
    (ha1 : 0 ≤ sumTotalAttempts p1.sessions)
    (ha2 : 0 ≤ sumTotalAttempts p2.sessions) :
    (overallStatsSpec p1 ∧ overallStatsSpec p2) ∧
    (sumSuccessfulAttempts p2.sessions = 7 → sumTotalAttempts p2.sessions = 10 →
      p2.overallStats.successRate = 70) := by
  have e1 : p1 = updateOverallStats
      { (findProgress ps cid).getD { child := cid } with
        sessions := ((findProgress ps cid).getD { child := cid }).sessions ++ [sd] } :=
    (Except.ok.inj h1).symm
  have e2 : p2 = updateOverallStats
      { (findProgress ps cid).getD { child := cid } with
        sessions := ((findProgress ps cid).getD { child := cid }).sessions ++ batch } :=
    (Except.ok.inj h2).symm
  subst e1; subst e2
  refine ⟨⟨overallStatsSpec_update _ ha1, overallStatsSpec_update _ ha2⟩, ?_⟩
  intro hs ht
  show (if sumTotalAttempts _ > 0 then
      sumSuccessfulAttempts _ / sumTotalAttempts _ * 100 else 0) = 70
  rw [show sumTotalAttempts (((findProgress ps cid).getD { child := cid }).sessions ++ batch)
        = 10 from ht,
      show sumSuccessfulAttempts (((findProgress ps cid).getD { child := cid }).sessions ++ batch)
        = 7 from hs]
  norm_num

/-- C5 witness: a concrete empty store and the two-session batch with
4+6 = 10 attempts, 3+4 = 7 successful, giving successRate 70. -/
theorem overallStats_fold_witness :
    overallStatsSpec exProg2 ∧ exProg2.overallStats.successRate = 70 := by
  have ha1 : (0:ℚ) ≤ sumTotalAttempts exProg1.sessions := by
    show (0:ℚ) ≤ sumTotalAttempts [exSession1]
    norm_num [sumTotalAttempts, exSession1, List.foldl_cons, List.foldl_nil]
  have ha2 : (0:ℚ) ≤ sumTotalAttempts exProg2.sessions := by
    show (0:ℚ) ≤ sumTotalAttempts exSessions
    norm_num [sumTotalAttempts, exSessions, List.foldl_cons, List.foldl_nil]
  have h := overallStats_fold 3 exSession1 exSessions [] exProg1 exProg2 rfl rfl ha1 ha2
  refine ⟨h.1.2, h.2 ?_ ?_⟩
  · show sumSuccessfulAttempts exSessions = 7
    norm_num [sumSuccessfulAttempts, exSessions, List.foldl_cons, List.foldl_nil]
  · show sumTotalAttempts exSessions = 10
    norm_num [sumTotalAttempts, exSessions, List.foldl_cons, List.foldl_nil]

/-- C10: the progress append and sync endpoints perform no Child lookup
and no authorization check: for any store and any childId (even one with
no Progress document and no Child at all) they succeed, creating the
document on first write, appending the supplied session(s), and
recomputing the stats. -/
theorem progressAppend_noChecks (ps : List ProgressDoc) (cid : Id) (sd : SessionRec)
    (batch : List SessionRec) :
    (progressSession cid sd ps).2.isOk = true ∧
    (progressSync cid batch ps).2.isOk = true ∧
    (findProgress ps cid = Option.none →
      (progressSession cid sd ps).1 =
        ps ++ [updateOverallStats { child := cid, sessions := [sd] }] ∧
      (progressSync cid batch ps).1 =
        ps ++ [updateOverallStats { child := cid, sessions := batch }]) ∧
    (∀ p, (progressSync cid batch ps).2 = Except.ok p →
      p.sessions = ((findProgress ps cid).getD { child := cid }).sessions ++ batch) := by
  refine ⟨rfl, rfl, ?_, ?_⟩
  · intro hnone
    constructor
    · simp only [progressSession]
      rw [hnone]
      simp only [Option.getD_none]
      rw [saveProgress_new _ _ hnone]
      simp
    · simp only [progressSync]
      rw [hnone]
      simp only [Option.getD_none]
      rw [saveProgress_new _ _ hnone]
      simp
  · intro p hp
    have := (Except.ok.inj hp).symm
    subst this
    rfl

/-- Shared helper: the unlink cascade detaches every child of the parent
assigned to the linked specialist, resetting both fields in one update. -/
theorem unlinkSpecialist_detach (s : St) (parentId S : Id) (p : UserRec)
    (hp : getUser s parentId = some p) (hrole : p.role = Role.parent)
    (hls : p.linkedSpecialist = some S) :
    ∀ s', unlinkSpecialist parentId s = Except.ok s' →
    ∀ cid c, getChild s cid = some c → c.parent = parentId → c.assignedSpecialist = some S →
      getChild s' cid =
        some { c with assignedSpecialist := .none, specialistRequestStatus := .none } := by
  intro s' heq cid c hc hcp hca
  simp only [unlinkSpecialist, requireRole, hp, hrole, hls, bind, Except.bind, if_pos,
    Except.ok.injEq] at heq
  subst heq
  have hmem : cid ∈ affectedChildren s parentId S := mem_affectedChildren hc hcp hca
  have hne : (affectedChildren s parentId S).isEmpty = false := by
    cases h : (affectedChildren s parentId S).isEmpty
    · rfl
    · rw [List.isEmpty_iff] at h
      rw [h] at hmem
      exact absurd hmem (List.not_mem_nil cid)
  rw [hne]
  simp only [Bool.false_eq_true, if_false]
  dsimp only [getChild, updateUser]
  rw [lookupA_mapWhere]
  have hc' : lookupA s.children cid = some c := hc
  rw [hc']
  simp [hmem]

theorem lookupA_mapAt_proj {β : Type} (l : List (Id × UserRec)) (i j : Id)
    (f : UserRec → UserRec) (proj : UserRec → β)
    (hf : ∀ u, proj (f u) = proj u) :
    (lookupA (mapAt l i f) j).map proj = (lookupA l j).map proj := by
  rw [lookupA_mapAt]
  by_cases h : j = i
  · rw [if_pos h]
    cases lookupA l j <;> simp [hf]
  · rw [if_neg h]

/-- Shared helper: everything the success path of accept-link-request
writes — request accepted, reciprocal edges added, every other pending
request from the same parent rejected, and the Child collection untouched. -/
theorem acceptLinkRequestCore_effects (s : St) (specId reqId : Id) (r : LinkReq)
    (sp parent : UserRec) (hsp : getUser s specId = some sp)
    (hr : getReq s reqId = some r)
    (hpar : getUser s r.fromUser = some parent) :
    (getReq (acceptLinkRequestCore specId reqId r s) reqId).map (fun q => q.status) =
      some LRStatus.accepted ∧
    (getUser (acceptLinkRequestCore specId reqId r s) r.fromUser).map
      (fun u => u.linkedSpecialist) = some (some specId) ∧
    (getUser (acceptLinkRequestCore specId reqId r s) specId).map
      (fun u => decide (r.fromUser ∈ u.linkedParents)) = some true ∧
    (∀ rid r2, getReq s rid = some r2 → r2.fromUser = r.fromUser →
      r2.status = LRStatus.pending → rid ≠ reqId →
      (getReq (acceptLinkRequestCore specId reqId r s) rid).map (fun q => q.status) =
        some LRStatus.rejected) ∧
    (∀ c, getChild s r.child = some c →
      getChild (acceptLinkRequestCore specId reqId r s) r.child = some c) := by
  have hr' : lookupA s.requests reqId = some r := hr
  have hpar' : lookupA s.users r.fromUser = some parent := hpar
  have hsp' : lookupA s.users specId = some sp := hsp
  refine ⟨?_, ?_, ?_, ?_, ?_⟩
  · dsimp only [acceptLinkRequestCore, linkEdge, getReq, updateReq, updateUser]
    rw [lookupA_mapWhere, lookupA_mapAt, if_pos rfl, hr']
    simp
  · dsimp only [acceptLinkRequestCore, linkEdge, getUser, updateReq, updateUser]
    rw [lookupA_mapAt, if_pos rfl, lookupA_mapAt]
    by_cases hfs : r.fromUser = specId
    · rw [if_pos hfs, hpar']
      simp
    · rw [if_neg hfs, hpar']
      simp
  · dsimp only [acceptLinkRequestCore, linkEdge, getUser, updateReq, updateUser]
    by_cases hfs : specId = r.fromUser
    · subst hfs
      rw [lookupA_mapAt, if_pos rfl, lookupA_mapAt, if_pos rfl, hpar']
      simp [mem_addToSet_self]
    · rw [lookupA_mapAt, if_neg hfs, lookupA_mapAt, if_pos rfl, hsp']
      simp [mem_addToSet_self]
  · intro rid r2 h2 hfrom hpend hne
    have h2' : lookupA s.requests rid = some r2 := h2
    dsimp only [acceptLinkRequestCore, linkEdge, getReq, updateReq, updateUser]
    rw [lookupA_mapWhere, lookupA_mapAt, if_neg hne, h2']
    simp [hfrom, hpend, hne]
  · intro c hc
    exact hc

/-- C1 counterexample: accepting pending link request 10 (specialist 2,
parent 1, child 3) succeeds, yet child 3 keeps `assignedSpecialist = none`
and `specialistRequestStatus = pending` — the handler never touches the
Child document, contradicting the claimed child mutation. -/
theorem acceptLinkRequest_child_unchanged_cex :
    (acceptLinkRequest 2 10 exAccept).map (fun s => getChild s 3) =
      Except.ok (some { parent := 1, assignedSpecialist := Option.none,
                        specialistRequestStatus := ReqStatus.pending }) :=
  by decide

/-- C1 (amended): accepting a pending link request addressed to this
specialist (parent not linked to a different specialist) marks the
request accepted, adds the parent to the specialist's `linkedParents`,
sets the parent's `linkedSpecialist`, and rejects every other pending
request from that parent — but it leaves the request's child entirely
unchanged (neither `assignedSpecialist` nor `specialistRequestStatus`
is written). -/
theorem acceptLinkRequest_effects (s : St) (specId reqId : Id) (sp : UserRec)
    (r : LinkReq) (parent : UserRec)
    (hsp : getUser s specId = some sp) (hrole : sp.role = Role.specialist)
    (hr : getReq s reqId = some r) (hto : r.toUser = specId)
    (hst : r.status = LRStatus.pending)
    (hpar : getUser s r.fromUser = some parent)
    (hpls : parent.linkedSpecialist = Option.none ∨
            parent.linkedSpecialist = some specId) :
    (acceptLinkRequest specId reqId s).isOk = true ∧
    (∀ s', acceptLinkRequest specId reqId s = Except.ok s' →
      (getReq s' reqId).map (fun q => q.status) = some LRStatus.accepted ∧
      (getUser s' r.fromUser).map (fun u => u.linkedSpecialist) = some (some specId) ∧
      (getUser s' specId).map (fun u => decide (r.fromUser ∈ u.linkedParents)) = some true ∧
      (∀ rid r2, getReq s rid = some r2 → r2.fromUser = r.fromUser →
        r2.status = LRStatus.pending → rid ≠ reqId →
        (getReq s' rid).map (fun q => q.status) = some LRStatus.rejected) ∧
      (∀ c, getChild s r.child = some c → getChild s' r.child = some c)) := by
  constructor
  · rcases hpls with h | h <;>
      simp [acceptLinkRequest, requireRole, hsp, hrole, hr, hto, hst, h, hpar,
        bind, Except.bind, Except.isOk, Except.toBool]
  · intro s' heq
    have hcore : s' = acceptLinkRequestCore specId reqId r s := by
      rcases hpls with h | h <;>
      · simp [acceptLinkRequest, requireRole, hsp, hrole, hr, hto, hst, h, hpar,
          bind, Except.bind, Except.ok.injEq] at heq
        exact heq.symm
    subst hcore
    exact acceptLinkRequestCore_effects s specId reqId r sp parent hsp hr hpar

/-- C1 witness: the amended effects at the concrete two-request state. -/
theorem acceptLinkRequest_effects_witness :
    (acceptLinkRequest 2 10 exAccept).isOk = true ∧
    (acceptLinkRequest 2 10 exAccept).map (fun s => (getReq s 10).map (fun q => q.status)) =
      Except.ok (some LRStatus.accepted) ∧
    (acceptLinkRequest 2 10 exAccept).map (fun s => (getReq s 11).map (fun q => q.status)) =
      Except.ok (some LRStatus.rejected) ∧
    (acceptLinkRequest 2 10 exAccept).map
      (fun s => (getUser s 1).map (fun u => u.linkedSpecialist)) =
      Except.ok (some (some 2)) := by
  have h := acceptLinkRequest_effects exAccept 2 10 { role := Role.specialist }
      { fromUser := 1, toUser := 2, child := 3 } { role := Role.parent }
      rfl rfl rfl rfl rfl rfl (Or.inl rfl)
  refine ⟨h.1, ?_, ?_, ?_⟩ <;>
  · cases heq : acceptLinkRequest 2 10 exAccept with
    | error e =>
      have hok := h.1
      rw [heq] at hok
      simp [Except.isOk, Except.toBool] at hok
    | ok s' =>
      have he := h.2 s' heq
      simp only [Except.map]
      first
      | rw [he.1]
      | rw [he.2.2.2.1 11 { fromUser := 1, toUser := 5, child := 3 } rfl rfl rfl
          (by decide)]
      | rw [he.2.1]

/-- C2 counterexample: accept-child then reject-child on the same child
completes with status `rejected` while `assignedSpecialist` is still set,
violating the claimed biconditional. -/
theorem childInvariant_reject_cex :
    ((acceptChild 2 3 exPending).bind (rejectChild 2 3)).map (fun s => getChild s 3) =
      Except.ok (some { parent := 1, assignedSpecialist := some 2, specialistRequestStatus := ReqStatus.rejected }) ∧
    childInvariant { parent := 1, assignedSpecialist := some 2, specialistRequestStatus := ReqStatus.rejected } = false :=
  ⟨by decide, by decide⟩

/-- C2 (amended): accept-child establishes the equivalence for the target
child, and the parent unlink clears `assignedSpecialist` and resets the
status to `none` in the same update for every affected child; but
reject-child only sets the status to `rejected`, leaving
`assignedSpecialist` exactly as it was, so rejecting an approved child
leaves a dangling reference and the biconditional does not hold after
every linkage operation. -/
theorem childInvariant_amended :
    (∀ s specId childId sp c s',
       getUser s specId = some sp → sp.role = Role.specialist →
       getChild s childId = some c →
       rejectChild specId childId s = Except.ok s' →
       getChild s' childId =
         some { c with specialistRequestStatus := ReqStatus.rejected }) ∧
    (∀ s specId childId sp c s',
       getUser s specId = some sp → sp.role = Role.specialist →
       getChild s childId = some c → c.specialistRequestStatus = ReqStatus.pending →
       acceptChild specId childId s = Except.ok s' →
       getChild s' childId =
         some { c with assignedSpecialist := some specId, specialistRequestStatus := ReqStatus.approved } ∧
       childInvariant { c with assignedSpecialist := some specId, specialistRequestStatus := ReqStatus.approved } = true) ∧
    (∀ s parentId S p s' cid c,
       getUser s parentId = some p → p.role = Role.parent →
       p.linkedSpecialist = some S →
       unlinkSpecialist parentId s = Except.ok s' →
       getChild s cid = some c → c.parent = parentId → c.assignedSpecialist = some S →
       getChild s' cid =
         some { c with assignedSpecialist := .none, specialistRequestStatus := .none } ∧
       childInvariant { c with assignedSpecialist := .none, specialistRequestStatus := .none } = true) := by
  refine ⟨?_, ?_, ?_⟩
  · intro s specId childId sp c s' hsp hrole hc heq
    simp [rejectChild, requireRole, hsp, hrole, hc, bind, Except.bind,
      Except.ok.injEq] at heq
    subst heq
    rw [getChild_updateChild]
    simp [hc]
  · intro s specId childId sp c s' hsp hrole hc hcp heq
    simp [acceptChild, requireRole, hsp, hrole, hc, hcp, bind, Except.bind,
      Except.ok.injEq] at heq
    subst heq
    refine ⟨?_, by simp [childInvariant]⟩
    rw [getChild_updateUser, getChild_updateChild]
    simp [hc]
  · intro s parentId S p s' cid c hp hrole hls heq hc hcp hca
    refine ⟨unlinkSpecialist_detach s parentId S p hp hrole hls s' heq cid c hc hcp hca,
      by simp [childInvariant]⟩

/-- C2 witness: the three amended conclusions at concrete states. -/
theorem childInvariant_amended_witness :
    (rejectChild 2 3 exPending).map (fun s => getChild s 3) =
      Except.ok (some { parent := 1, specialistRequestStatus := ReqStatus.rejected }) ∧
    (acceptChild 2 3 exPending).map (fun s => getChild s 3) =
      Except.ok (some { parent := 1, assignedSpecialist := some 2, specialistRequestStatus := ReqStatus.approved }) ∧
    (unlinkSpecialist 1 exFamily).map (fun s => getChild s 11) =
      Except.ok (some { parent := 1 }) := by
  refine ⟨?_, ?_, ?_⟩
  · cases heq : rejectChild 2 3 exPending with
    | error e =>
      have hok : (rejectChild 2 3 exPending).isOk = true := by decide
      rw [heq] at hok
      simp [Except.isOk, Except.toBool] at hok
    | ok s' =>
      have h := childInvariant_amended.1 exPending 2 3 { role := Role.specialist }
        { parent := 1, specialistRequestStatus := ReqStatus.pending } s' rfl rfl rfl heq
      simp only [Except.map]
      rw [h]
  · cases heq : acceptChild 2 3 exPending with
    | error e =>
      have hok : (acceptChild 2 3 exPending).isOk = true := by decide
      rw [heq] at hok
      simp [Except.isOk, Except.toBool] at hok
    | ok s' =>
      have h := (childInvariant_amended.2.1 exPending 2 3 { role := Role.specialist }
        { parent := 1, specialistRequestStatus := ReqStatus.pending } s' rfl rfl rfl rfl heq).1
      simp only [Except.map]
      rw [h]
  · cases heq : unlinkSpecialist 1 exFamily with
    | error e =>
      have hok : (unlinkSpecialist 1 exFamily).isOk = true := by decide
      rw [heq] at hok
      simp [Except.isOk, Except.toBool] at hok
    | ok s' =>
      have h := (childInvariant_amended.2.2 exFamily 1 2
        { role := Role.parent, linkedSpecialist := some 2 } s' 11
        { parent := 1, assignedSpecialist := some 2, specialistRequestStatus := ReqStatus.approved }
        rfl rfl rfl heq rfl rfl rfl).1
      simp only [Except.map]
      rw [h]

theorem lookupA_mapAt_isSome {α : Type} (l : List (Id × α)) (i j : Id) (f : α → α) :
    (lookupA (mapAt l i f) j).isSome = (lookupA l j).isSome := by
  rw [lookupA_mapAt]
  by_cases h : j = i
  · rw [if_pos h]
    cases lookupA l j <;> simp
  · rw [if_neg h]

/-- C4: a parent linked to specialist S who unlinks has their
`linkedSpecialist` cleared and is removed from S's `linkedParents`; every
child of that parent assigned to S is reset to `assignedSpecialist = none`
and status `none` and removed from S's `assignedChildren`; and a
notification for S carrying the affected child ids is created. -/
theorem unlinkSpecialist_cascade (s : St) (pid S : Id) (p sp : UserRec)
    (hp : getUser s pid = some p) (hrole : p.role = Role.parent)
    (hls : p.linkedSpecialist = some S) (hsp : getUser s S = some sp) :
    (unlinkSpecialist pid s).isOk = true ∧
    (∀ s', unlinkSpecialist pid s = Except.ok s' →
      (getUser s' pid).map (fun u => u.linkedSpecialist) = some Option.none ∧
      (getUser s' S).map (fun u => decide (pid ∈ u.linkedParents)) = some false ∧
      (∀ cid c, getChild s cid = some c → c.parent = pid → c.assignedSpecialist = some S →
        getChild s' cid =
          some { c with assignedSpecialist := .none, specialistRequestStatus := .none } ∧
        (getUser s' S).map (fun u => decide (cid ∈ u.assignedChildren)) = some false) ∧
      ({ recipient := S, childIds := affectedChildren s pid S } : Notif) ∈ s'.notifs) := by
  have hp' : lookupA s.users pid = some p := hp
  have hsp' : lookupA s.users S = some sp := hsp
  constructor
  · simp [unlinkSpecialist, requireRole, hp, hrole, hls, bind, Except.bind,
      Except.isOk, Except.toBool]
  · intro s' heq
    have hdetach := unlinkSpecialist_detach s pid S p hp hrole hls s' heq
    simp only [unlinkSpecialist, requireRole, hp, hrole, hls, bind, Except.bind, if_pos,
      Except.ok.injEq] at heq
    subst heq
    refine ⟨?_, ?_, ?_, ?_⟩
    · by_cases hck : (affectedChildren s pid S).isEmpty
      · rw [hck]
        simp only [if_true]
        dsimp only [getUser, updateUser]
        rw [lookupA_mapAt_proj _ S pid (fun u => { u with linkedParents := u.linkedParents.filter (fun q => q ≠ pid) }) (fun u => u.linkedSpecialist) (fun u => rfl)]
        rw [lookupA_mapAt, if_pos rfl, hp']
        simp
      · rw [Bool.not_eq_true] at hck
        rw [hck]
        simp only [Bool.false_eq_true, if_false]
        dsimp only [getUser, updateUser]
        rw [lookupA_mapAt_proj _ S pid (fun u => { u with assignedChildren := u.assignedChildren.filter (fun c => c ∉ affectedChildren s pid S) }) (fun u => u.linkedSpecialist) (fun u => rfl)]
        rw [lookupA_mapAt_proj _ S pid (fun u => { u with linkedParents := u.linkedParents.filter (fun q => q ≠ pid) }) (fun u => u.linkedSpecialist) (fun u => rfl)]
        rw [lookupA_mapAt, if_pos rfl, hp']
        simp
    · by_cases hck : (affectedChildren s pid S).isEmpty
      · rw [hck]
        simp only [if_true]
        dsimp only [getUser, updateUser]
        rw [lookupA_mapAt, if_pos rfl, Option.map_map, lookupA_mapAt]
        by_cases hsp2 : S = pid
        · rw [if_pos hsp2, hsp2, hp']
          simp [List.mem_filter]
        · rw [if_neg hsp2, hsp']
          simp [List.mem_filter]
      · rw [Bool.not_eq_true] at hck
        rw [hck]
        simp only [Bool.false_eq_true, if_false]
        dsimp only [getUser, updateUser]
        rw [lookupA_mapAt_proj _ S S (fun u => { u with assignedChildren := u.assignedChildren.filter (fun c => c ∉ affectedChildren s pid S) }) (fun u => decide (pid ∈ u.linkedParents)) (fun u => rfl)]
        rw [lookupA_mapAt, if_pos rfl, Option.map_map, lookupA_mapAt]
        by_cases hsp2 : S = pid
        · rw [if_pos hsp2, hsp2, hp']
          simp [List.mem_filter]
        · rw [if_neg hsp2, hsp']
          simp [List.mem_filter]
    · intro cid c hc hcp hca
      refine ⟨hdetach cid c hc hcp hca, ?_⟩
      have hmem : cid ∈ affectedChildren s pid S := mem_affectedChildren hc hcp hca
      have hne : (affectedChildren s pid S).isEmpty = false := by
        cases h : (affectedChildren s pid S).isEmpty
        · rfl
        · rw [List.isEmpty_iff] at h
          rw [h] at hmem
          exact absurd hmem (List.not_mem_nil cid)
      rw [hne]
      simp only [Bool.false_eq_true, if_false]
      dsimp only [getUser, updateUser]
      rw [lookupA_mapAt, if_pos rfl, Option.map_map]
      have hsome : (lookupA (mapAt (mapAt s.users pid
          (fun u => { u with linkedSpecialist := Option.none })) S
          (fun u => { u with linkedParents :=
            u.linkedParents.filter (fun q => q ≠ pid) })) S).isSome = true := by
        rw [lookupA_mapAt_isSome, lookupA_mapAt_isSome, hsp']
        rfl
      obtain ⟨v, hv⟩ := Option.isSome_iff_exists.mp hsome
      rw [hv]
      simp [List.mem_filter, hmem]
    · by_cases hck : (affectedChildren s pid S).isEmpty
      · rw [hck]
        simp only [if_true]
        exact List.mem_append_right _ (List.mem_singleton_self _)
      · rw [Bool.not_eq_true] at hck
        rw [hck]
        simp only [Bool.false_eq_true, if_false]
        exact List.mem_append_right _ (List.mem_singleton_self _)

/-- C4 witness: parent 1 linked to specialist 2 with children 11 and 12
both assigned: unlink clears the edge and detaches child 11. -/
theorem unlinkSpecialist_cascade_witness :
    (unlinkSpecialist 1 exFamily).isOk = true ∧
    (unlinkSpecialist 1 exFamily).map
      (fun s => (getUser s 1).map (fun u => u.linkedSpecialist)) =
      Except.ok (some Option.none) ∧
    (unlinkSpecialist 1 exFamily).map
      (fun s => (getUser s 2).map (fun u => decide (1 ∈ u.linkedParents))) =
      Except.ok (some false) ∧
    (unlinkSpecialist 1 exFamily).map (fun s => getChild s 11) =
      Except.ok (some { parent := 1 }) ∧
    (unlinkSpecialist 1 exFamily).map
      (fun s => (getUser s 2).map (fun u => decide (11 ∈ u.assignedChildren))) =
      Except.ok (some false) := by
  have h := unlinkSpecialist_cascade exFamily 1 2
      { role := Role.parent, linkedSpecialist := some 2 }
      { role := Role.specialist, linkedParents := [1], assignedChildren := [11, 12] }
      rfl rfl rfl rfl
  refine ⟨h.1, ?_, ?_, ?_, ?_⟩ <;>
  · cases heq : unlinkSpecialist 1 exFamily with
    | error e =>
      have hok := h.1
      rw [heq] at hok
      simp [Except.isOk, Except.toBool] at hok
    | ok s' =>
      have he := h.2 s' heq
      simp only [Except.map]
      first
      | rw [he.1]
      | rw [he.2.1]
      | rw [(he.2.2.1 11 { parent := 1, assignedSpecialist := some 2, specialistRequestStatus := ReqStatus.approved } rfl rfl rfl).1]
      | rw [(he.2.2.1 11 { parent := 1, assignedSpecialist := some 2, specialistRequestStatus := ReqStatus.approved } rfl rfl rfl).2]

/-- C3 counterexample: parent 1 is consistently linked to specialist 2,
yet link-parent by specialist 3 succeeds and leaves an inconsistent
state — parent 1 now points at 3 while still sitting in 2's
`linkedParents` (the handler never detaches the previous specialist). -/
theorem consistent_linkParent_cex :
    consistent exLinked = true ∧
    (linkParent 3 1 exLinked).map consistent = Except.ok false :=
  ⟨by decide, by decide⟩

/-- C3 (amended): the reciprocal-edge invariant — every parent's
`linkedSpecialist` is mirrored in that specialist's `linkedParents` and
vice versa — is preserved by link-parent, unlink-parent, create-parent
(fresh id), accept-link-request and unlink-specialist, *provided* the
affected parent is not currently linked to a different specialist than
the one named by the operation; link-parent and unlink-parent do not
check this and break the invariant otherwise. -/
theorem linkage_consistency_amended :
    (∀ s s' specId parentId sp p,
       Consistent s →
       getUser s specId = some sp → sp.role = Role.specialist →
       getUser s parentId = some p → p.role = Role.parent →
       (p.linkedSpecialist = Option.none ∨ p.linkedSpecialist = some specId) →
       linkParent specId parentId s = Except.ok s' → Consistent s') ∧
    (∀ s s' specId parentId sp p,
       Consistent s →
       getUser s specId = some sp → sp.role = Role.specialist →
       getUser s parentId = some p →
       (p.linkedSpecialist = Option.none ∨ p.linkedSpecialist = some specId) →
       unlinkParent specId parentId s = Except.ok s' → Consistent s') ∧
    (∀ s s' specId sp name email password,
       Consistent s →
       getUser s specId = some sp → sp.role = Role.specialist →
       getUser s s.nextId = Option.none →
       createParent specId name email password s = Except.ok s' → Consistent s') ∧
    (∀ s s' specId reqId sp r parent,
       Consistent s →
       getUser s specId = some sp → sp.role = Role.specialist →
       getReq s reqId = some r → r.toUser = specId → r.status = LRStatus.pending →
       getUser s r.fromUser = some parent →
       (parent.linkedSpecialist = Option.none ∨ parent.linkedSpecialist = some specId) →
       acceptLinkRequest specId reqId s = Except.ok s' → Consistent s') ∧
    (∀ s s' parentId specId p,
       Consistent s →
       getUser s parentId = some p → p.role = Role.parent →
       p.linkedSpecialist = some specId →
       unlinkSpecialist parentId s = Except.ok s' → Consistent s') := by
  refine ⟨?_, ?_, ?_, ?_, ?_⟩
  · intro s s' specId parentId sp p hc hsp hrole hp hprole hpls hok
    by_cases hmem : parentId ∈ sp.linkedParents
    · simp [linkParent, requireRole, hsp, hrole, hp, hprole, hmem,
        bind, Except.bind] at hok
    · simp [linkParent, requireRole, hsp, hrole, hp, hprole, hmem,
        bind, Except.bind, Except.ok.injEq] at hok
      subst hok
      exact Consistent_linkEdge s specId parentId sp p hc hsp hp hpls
  · intro s s' specId parentId sp p hc hsp hrole hp hpls hok
    simp only [unlinkParent, requireRole, hsp, hrole, if_pos, bind, Except.bind,
      Except.ok.injEq] at hok
    subst hok
    rw [updateUser_comm s specId parentId
        (fun u => { u with linkedParents := u.linkedParents.filter (fun q => q ≠ parentId) })
        (fun u => { u with linkedSpecialist := Option.none }) (fun v => rfl)]
    exact Consistent_unlinkEdge s specId parentId p hc hp hpls
  · intro s s' specId sp name email password hc hsp hrole hfresh hok
    by_cases hemp : name = "" ∨ email = "" ∨ password = ""
    · simp [createParent, requireRole, hsp, hrole, hemp, bind, Except.bind] at hok
    · by_cases hdup : (s.users.any fun kv => kv.2.email == jsToLower email) = true
      · simp [createParent, requireRole, hsp, hrole, hemp, hdup, bind, Except.bind] at hok
      · simp only [createParent, requireRole, hsp, hrole, if_pos, bind, Except.bind] at hok
        rw [if_neg hemp, if_neg hdup] at hok
        obtain rfl := Except.ok.inj hok
        exact Consistent_appendLink s specId s.nextId sp _ hc hsp hfresh rfl rfl
  · intro s s' specId reqId sp r parent hc hsp hrole hr hto hst hpar hpls hok
    have hcore : acceptLinkRequestCore specId reqId r s = s' := by
      rcases hpls with h | h <;>
      · simp [acceptLinkRequest, requireRole, hsp, hrole, hr, hto, hst, h, hpar,
          bind, Except.bind, Except.ok.injEq] at hok
        exact hok
    subst hcore
    have hC1 : Consistent (updateReq s reqId (fun q => { q with status := LRStatus.accepted })) :=
      Consistent_usersEq s _ rfl hc
    have hC2 : Consistent (linkEdge (updateReq s reqId
        (fun q => { q with status := LRStatus.accepted })) specId r.fromUser) :=
      Consistent_linkEdge _ specId r.fromUser sp parent hC1 hsp hpar hpls
    exact Consistent_usersEq _ _ rfl hC2
  · intro s s' parentId specId p hc hp hrole hls hok
    simp only [unlinkSpecialist, requireRole, hp, hrole, hls, bind, Except.bind, if_pos,
      Except.ok.injEq] at hok
    subst hok
    have hC2 : Consistent (updateUser (updateUser s parentId
        (fun u => { u with linkedSpecialist := Option.none })) specId
        (fun u => { u with linkedParents := u.linkedParents.filter (fun q => q ≠ parentId) })) :=
      Consistent_unlinkEdge s specId parentId p hc hp (Or.inr hls)
    by_cases hemp : (affectedChildren s parentId specId).isEmpty = true
    · rw [if_pos hemp]
      exact Consistent_usersEq _ _ rfl hC2
    · rw [if_neg hemp]
      exact Consistent_usersMapAt
        (updateUser (updateUser s parentId
          (fun u => { u with linkedSpecialist := Option.none })) specId
          (fun u => { u with linkedParents := u.linkedParents.filter (fun q => q ≠ parentId) }))
        _ specId
        (fun u => { u with assignedChildren :=
          u.assignedChildren.filter (fun c => c ∉ affectedChildren s parentId specId) })
        (fun u => rfl) (fun u => rfl) rfl hC2

/-- C3 witness: each of the five linkage operations run at a concrete
consistent state satisfying the amended preconditions preserves the
reciprocal-edge invariant. -/
theorem linkage_consistency_amended_witness :
    (linkParent 2 1 exFree).map consistent = Except.ok true ∧
    (unlinkParent 2 1 exLinked).map consistent = Except.ok true ∧
    (createParent 2 "Ann" "ann@x" "pw" exFree).map consistent = Except.ok true ∧
    (acceptLinkRequest 2 10 exAccept).map consistent = Except.ok true ∧
    (unlinkSpecialist 1 exFamily).map consistent = Except.ok true := by
  refine ⟨?_, ?_, ?_, ?_, ?_⟩
  · cases heq : linkParent 2 1 exFree with
    | error e =>
      have hok : (linkParent 2 1 exFree).isOk = true := by decide
      rw [heq] at hok
      simp [Except.isOk, Except.toBool] at hok
    | ok s1 =>
      have hcons : Consistent s1 :=
        linkage_consistency_amended.1 exFree s1 2 1 _ _
          ((consistent_iff exFree).mp (by decide)) rfl rfl rfl rfl (Or.inl rfl) heq
      simp only [Except.map]
      rw [(consistent_iff s1).mpr hcons]
  · cases heq : unlinkParent 2 1 exLinked with
    | error e =>
      have hok : (unlinkParent 2 1 exLinked).isOk = true := by decide
      rw [heq] at hok
      simp [Except.isOk, Except.toBool] at hok
    | ok s1 =>
      have hcons : Consistent s1 :=
        linkage_consistency_amended.2.1 exLinked s1 2 1 _ _
          ((consistent_iff exLinked).mp (by decide)) rfl rfl rfl (Or.inr rfl) heq
      simp only [Except.map]
      rw [(consistent_iff s1).mpr hcons]
  · cases heq : createParent 2 "Ann" "ann@x" "pw" exFree with
    | error e =>
      have hok : (createParent 2 "Ann" "ann@x" "pw" exFree).isOk = true := by decide
      rw [heq] at hok
      simp [Except.isOk, Except.toBool] at hok
    | ok s1 =>
      have hcons : Consistent s1 :=
        linkage_consistency_amended.2.2.1 exFree s1 2 _ "Ann" "ann@x" "pw"
          ((consistent_iff exFree).mp (by decide)) rfl rfl rfl heq
      simp only [Except.map]
      rw [(consistent_iff s1).mpr hcons]
  · cases heq : acceptLinkRequest 2 10 exAccept with
    | error e =>
      have hok : (acceptLinkRequest 2 10 exAccept).isOk = true := by decide
      rw [heq] at hok
      simp [Except.isOk, Except.toBool] at hok
    | ok s1 =>
      have hcons : Consistent s1 :=
        linkage_consistency_amended.2.2.2.1 exAccept s1 2 10 _ _ _
          ((consistent_iff exAccept).mp (by decide)) rfl rfl rfl rfl rfl rfl
          (Or.inl rfl) heq
      simp only [Except.map]
      rw [(consistent_iff s1).mpr hcons]
  · cases heq : unlinkSpecialist 1 exFamily with
    | error e =>
      have hok : (unlinkSpecialist 1 exFamily).isOk = true := by decide
      rw [heq] at hok
      simp [Except.isOk, Except.toBool] at hok
    | ok s1 =>
      have hcons : Consistent s1 :=
        linkage_consistency_amended.2.2.2.2 exFamily s1 1 2 _
          ((consistent_iff exFamily).mp (by decide)) rfl rfl rfl heq
      simp only [Except.map]
      rw [(consistent_iff s1).mpr hcons]

/-! ### Content aggregate lemmas -/

theorem getOrCreateContentDoc_found (cid : Id) (st : CSt) (d : ContentDoc)
    (h : findContentDoc st cid = some d) : getOrCreateContentDoc cid st = (d, st) := by
  unfold getOrCreateContentDoc
  rw [h]

theorem getOrCreateContentDoc_mem (cid : Id) (st : CSt) :
    (getOrCreateContentDoc cid st).1 ∈ (getOrCreateContentDoc cid st).2.docs := by
  unfold getOrCreateContentDoc
  cases h : findContentDoc st cid with
  | some d => exact List.mem_of_find?_eq_some h
  | none => simp

theorem getOrCreateContentDoc_uniq (cid : Id) (st : CSt) (h : uniqueTexts st) :
    uniqueTexts (getOrCreateContentDoc cid st).2 := by
  unfold getOrCreateContentDoc
  cases hf : findContentDoc st cid with
  | some d => exact h
  | none =>
    intro d hd
    rcases List.mem_append.mp hd with h1 | h2
    · exact h d h1
    · rw [List.mem_singleton] at h2
      subst h2
      simp

theorem hasItem_stripItem (d : ContentDoc) (i : Id) :
    hasItem (stripItem d i) i = false := by
  simp only [hasItem, stripItem, Bool.or_eq_false_iff, List.any_eq_false]
  constructor <;> intro it hit <;>
  · have h2 := (List.mem_filter.mp hit).2
    simp at h2 ⊢
    exact h2

theorem find_replace_aux (l : List ContentDoc) (d : ContentDoc)
    (hmem : ∃ d0 ∈ l, d0.id = d.id) :
    (l.map (fun x => if x.id == d.id then d else x)).find? (fun x => x.id == d.id) =
      some d := by
  induction l with
  | nil =>
    obtain ⟨d0, h0, _⟩ := hmem
    exact absurd h0 (List.not_mem_nil d0)
  | cons a t ih =>
    by_cases ha : a.id = d.id
    · simp [List.find?_cons, ha]
    · have hmem' : ∃ d0 ∈ t, d0.id = d.id := by
        obtain ⟨d0, h0, he⟩ := hmem
        cases List.mem_cons.mp h0 with
        | inl h => rw [h] at he; exact absurd he ha
        | inr h => exact ⟨d0, h, he⟩
      simpa [List.find?_cons, ha] using ih hmem'

/-- Shared helper: the append path preserves per-document text
uniqueness — the duplicate check guards the push. -/
theorem uniqueTexts_contentAddCore (caller : Id) (t : String) (ctype : CType)
    (diff : Option Difficulty) (img : String) (cid : Id) (st : CSt)
    (h : uniqueTexts st) :
    uniqueTexts (contentAddCore caller t ctype diff img cid st).1 := by
  have h1 : uniqueTexts (getOrCreateContentDoc cid st).2 :=
    getOrCreateContentDoc_uniq cid st h
  have hdocmem : (getOrCreateContentDoc cid st).1 ∈ (getOrCreateContentDoc cid st).2.docs :=
    getOrCreateContentDoc_mem cid st
  cases hE : getOrCreateContentDoc cid st with
  | mk doc st1 =>
    rw [hE] at h1 hdocmem
    simp only at h1 hdocmem
    unfold contentAddCore
    rw [hE]
    cases ctype with
    | word =>
      dsimp only
      by_cases hdup : doc.contentWords.any (fun i => i.text == jsTrim t)
      · rw [if_pos hdup]
        exact h1
      · rw [if_neg hdup]
        intro d hd
        obtain ⟨d0, hd0, hd0e⟩ := List.mem_map.mp hd
        by_cases hid : (d0.id == doc.id) = true
        · rw [if_pos hid] at hd0e
          subst hd0e
          refine ⟨?_, (h1 doc hdocmem).2⟩
          dsimp only
          rw [List.map_append, List.nodup_append]
          refine ⟨(h1 doc hdocmem).1, by simp, ?_⟩
          intro x hx
          simp only [List.map_cons, List.map_nil, List.mem_singleton]
          intro hx2
          subst hx2
          rw [Bool.not_eq_true, List.any_eq_false] at hdup
          obtain ⟨it, hit, hite⟩ := List.mem_map.mp hx
          exact absurd (by simp [hite]) (hdup it hit)
        · rw [if_neg hid] at hd0e
          subst hd0e
          exact h1 d0 hd0
    | letter =>
      dsimp only
      by_cases hdup : doc.contentLetters.any (fun i => i.text == jsTrim t)
      · rw [if_pos hdup]
        exact h1
      · rw [if_neg hdup]
        intro d hd
        obtain ⟨d0, hd0, hd0e⟩ := List.mem_map.mp hd
        by_cases hid : (d0.id == doc.id) = true
        · rw [if_pos hid] at hd0e
          subst hd0e
          refine ⟨(h1 doc hdocmem).1, ?_⟩
          dsimp only
          rw [List.map_append, List.nodup_append]
          refine ⟨(h1 doc hdocmem).2, by simp, ?_⟩
          intro x hx
          simp only [List.map_cons, List.map_nil, List.mem_singleton]
          intro hx2
          subst hx2
          rw [Bool.not_eq_true, List.any_eq_false] at hdup
          obtain ⟨it, hit, hite⟩ := List.mem_map.mp hx
          exact absurd (by simp [hite]) (hdup it hit)
        · rw [if_neg hid] at hd0e
          subst hd0e
          exact h1 d0 hd0

theorem uniqueTexts_contentAdd (caller : Id) (t : String) (ctype : CType)
    (diff : Option Difficulty) (cid : Id) (st : CSt) (h : uniqueTexts st) :
    uniqueTexts (contentAdd caller t ctype diff cid st).1 := by
  unfold contentAdd
  split
  · exact h
  · split
    · exact h
    · split
      · exact h
      · exact uniqueTexts_contentAddCore _ _ _ _ _ _ _ h

theorem uniqueTexts_wordsCreate (caller : Id) (t : String) (ctype : Option CType)
    (diff : Option Difficulty) (img : Option String) (cid : Id) (st : CSt)
    (h : uniqueTexts st) :
    uniqueTexts (wordsCreate caller t ctype diff img cid st).1 := by
  unfold wordsCreate
  split
  · exact h
  · exact uniqueTexts_contentAddCore _ _ _ _ _ _ _ h

theorem uniqueTexts_specialistContentAdd (caller : Id) (t : String) (ctype : CType)
    (diff : Option Difficulty) (cid : Id) (st : CSt) (h : uniqueTexts st) :
    uniqueTexts (specialistContentAdd caller t ctype diff cid st).1 := by
  unfold specialistContentAdd
  split
  · exact h
  · split
    · exact h
    · split
      · exact h
      · split
        · exact h
        · split
          · exact h
          · split
            · exact h
            · exact uniqueTexts_contentAddCore _ _ _ _ _ _ _ h

/-- Shared helper: the word-append path succeeds whenever the trimmed
text is not already present for that child. -/
theorem contentAddCore_word_ok (caller : Id) (t : String) (diff : Option Difficulty)
    (img : String) (cid : Id) (st : CSt)
    (hno : ∀ doc, findContentDoc st cid = some doc →
      jsTrim t ∉ doc.contentWords.map (fun x => x.text)) :
    ((contentAddCore caller t CType.word diff img cid st).2).isOk = true := by
  unfold contentAddCore
  cases hfd : findContentDoc st cid with
  | some doc =>
    rw [getOrCreateContentDoc_found cid st doc hfd]
    dsimp only
    have hany : doc.contentWords.any (fun i => i.text == jsTrim t) = false := by
      rw [List.any_eq_false]
      intro it hit
      simp only [beq_iff_eq]
      intro he
      exact hno doc hfd (List.mem_map.mpr ⟨it, hit, he⟩)
    simp only [hany, Bool.false_eq_true, if_false]
    rfl
  | none =>
    have hfresh : getOrCreateContentDoc cid st =
        ({ id := st.nextId, child := cid },
         { st with docs := st.docs ++ [{ id := st.nextId, child := cid }],
                   nextId := st.nextId + 1 }) := by
      unfold getOrCreateContentDoc
      rw [hfd]
    rw [hfresh]
    dsimp only
    rfl

/-- C6: for a given child and target sub-collection, adding an item whose
trimmed text already exists is rejected with the conflict error and the
store is unchanged; adding the same text for a different child succeeds;
and every append entry point preserves per-document text uniqueness, so
neither sub-collection ever holds two items with identical trimmed text. -/
theorem contentUniqueness :
    (∀ caller t diff cid st doc, findContentDoc st cid = some doc →
      jsTrim t ∈ doc.contentWords.map (fun it => it.text) →
      t ≠ "" → t.length ≤ 20 →
      contentAdd caller t CType.word diff cid st =
        (st, Except.error (Err.badRequest "Word already exists for this child"))) ∧
    (∀ caller t diff cid st, t ≠ "" → t.length ≤ 20 →
      (∀ doc, findContentDoc st cid = some doc →
        jsTrim t ∉ doc.contentWords.map (fun it => it.text)) →
      ((contentAdd caller t CType.word diff cid st).2).isOk = true) ∧
    (∀ caller t ctype diff cid st, uniqueTexts st →
      uniqueTexts (contentAdd caller t ctype diff cid st).1) ∧
    (∀ caller t ctype diff img cid st, uniqueTexts st →
      uniqueTexts (wordsCreate caller t ctype diff img cid st).1) ∧
    (∀ caller t ctype diff cid st, uniqueTexts st →
      uniqueTexts (specialistContentAdd caller t ctype diff cid st).1) := by
  refine ⟨?_, ?_, ?_, ?_, ?_⟩
  · intro caller t diff cid st doc hdoc hmem ht hlen
    unfold contentAdd
    rw [if_neg ht, if_neg (by simp), if_neg (by simp [Nat.not_lt.mpr hlen])]
    unfold contentAddCore
    rw [getOrCreateContentDoc_found cid st doc hdoc]
    dsimp only
    have hany : doc.contentWords.any (fun i => i.text == jsTrim t) = true := by
      rw [List.any_eq_true]
      obtain ⟨it, hit, hite⟩ := List.mem_map.mp hmem
      exact ⟨it, hit, by simp [hite]⟩
    rw [if_pos hany]
    simp only [Prod.mk.injEq]
    exact ⟨trivial, by decide⟩
  · intro caller t diff cid st ht hlen hno
    unfold contentAdd
    rw [if_neg ht, if_neg (by simp), if_neg (by simp [Nat.not_lt.mpr hlen])]
    exact contentAddCore_word_ok caller t diff _ cid st hno
  · intro caller t ctype diff cid st h
    exact uniqueTexts_contentAdd caller t ctype diff cid st h
  · intro caller t ctype diff img cid st h
    exact uniqueTexts_wordsCreate caller t ctype diff img cid st h
  · intro caller t ctype diff cid st h
    exact uniqueTexts_specialistContentAdd caller t ctype diff cid st h

/-- C6 witness: the spec's scenario — adding "تفاحة" again for child 3 is
rejected with conflict and the store unchanged, adding it for child 4
succeeds, and uniqueness is preserved. -/
theorem contentUniqueness_witness :
    contentAdd 9 "تفاحة" CType.word Option.none 3 exCSt =
      (exCSt, Except.error (Err.badRequest "Word already exists for this child")) ∧
    ((contentAdd 9 "تفاحة" CType.word Option.none 4 exCSt).2).isOk = true ∧
    uniqueTexts (contentAdd 9 "تفاحة" CType.word Option.none 4 exCSt).1 := by
  refine ⟨?_, ?_, ?_⟩
  · exact contentUniqueness.1 9 "تفاحة" Option.none 3 exCSt
      { id := 50, child := 3, contentWords := [{ id := 60, text := "تفاحة", createdBy := 2 }] }
      rfl (by decide) (by decide) (by decide)
  · refine contentUniqueness.2.1 9 "تفاحة" Option.none 4 exCSt (by decide) (by decide) ?_
    intro doc hdoc
    rw [show findContentDoc exCSt 4 = Option.none from by decide] at hdoc
    cases hdoc
  · exact contentUniqueness.2.2.1 9 "تفاحة" CType.word Option.none 4 exCSt
      (by unfold uniqueTexts; decide)

/-- C7 counterexample: the words entry point appends a 21-character word
with no length validation at all, contradicting the claim that word text
longer than 20 characters is rejected before appending. -/
theorem wordsCreate_noLengthCheck_cex :
    ((wordsCreate 9 "aaaaaaaaaaaaaaaaaaaaa" Option.none Option.none Option.none 4
        exCSt).2).isOk = true ∧
    "aaaaaaaaaaaaaaaaaaaaa".length = 21 :=
  ⟨by decide, by decide⟩

/-- C7 (amended): the two content/add endpoints validate text length
before appending — the specialist portal rejects letters over 2
characters and words over 20, the generic endpoint rejects letters over 1
character and words over 20 — and on success the trimmed text is stored;
but the words entry point performs no length validation: any non-empty,
non-duplicate text of any length is appended. -/
theorem contentLength_amended :
    (∀ caller t diff cid st ch, getChildC st cid = some ch →
      ch.assignedSpecialist = some caller → t ≠ "" → t.length > 2 →
      specialistContentAdd caller t CType.letter diff cid st =
        (st, Except.error (Err.badRequest "Letter with vowel must not exceed 2 characters"))) ∧
    (∀ caller t diff cid st ch, getChildC st cid = some ch →
      ch.assignedSpecialist = some caller → t ≠ "" → t.length > 20 →
      specialistContentAdd caller t CType.word diff cid st =
        (st, Except.error (Err.badRequest "Word must not exceed 20 characters"))) ∧
    (∀ caller t diff cid st, t ≠ "" → t.length > 1 →
      contentAdd caller t CType.letter diff cid st =
        (st, Except.error (Err.badRequest "Letter must be a single character"))) ∧
    (∀ caller t diff cid st, t ≠ "" → t.length > 20 →
      contentAdd caller t CType.word diff cid st =
        (st, Except.error (Err.badRequest "Word must not exceed 20 characters"))) ∧
    (∀ caller t ctype diff img cid st st' it,
      contentAddCore caller t ctype diff img cid st = (st', Except.ok it) →
      it.text = jsTrim t) ∧
    (∀ caller t diff img cid st, t ≠ "" →
      (∀ doc, findContentDoc st cid = some doc →
        jsTrim t ∉ doc.contentWords.map (fun x => x.text)) →
      ((wordsCreate caller t Option.none diff img cid st).2).isOk = true) := by
  refine ⟨?_, ?_, ?_, ?_, ?_, ?_⟩
  · intro caller t diff cid st ch hch hca ht hlen
    unfold specialistContentAdd
    rw [if_neg ht, hch]
    dsimp only
    rw [hca]
    dsimp only
    rw [if_neg (by simp), if_pos ⟨rfl, hlen⟩]
  · intro caller t diff cid st ch hch hca ht hlen
    unfold specialistContentAdd
    rw [if_neg ht, hch]
    dsimp only
    rw [hca]
    dsimp only
    rw [if_neg (by simp), if_neg (by simp), if_pos ⟨rfl, hlen⟩]
  · intro caller t diff cid st ht hlen
    unfold contentAdd
    rw [if_neg ht, if_pos ⟨rfl, hlen⟩]
  · intro caller t diff cid st ht hlen
    unfold contentAdd
    rw [if_neg ht, if_neg (by simp), if_pos ⟨rfl, hlen⟩]
  · intro caller t ctype diff img cid st st' it heq
    cases hE : getOrCreateContentDoc cid st with
    | mk doc st1 =>
      unfold contentAddCore at heq
      rw [hE] at heq
      cases ctype <;> dsimp only at heq <;> split at heq
      · have := congrArg Prod.snd heq
        simp at this
      · have := congrArg Prod.snd heq
        simp only [Except.ok.injEq] at this
        rw [← this]
      · have := congrArg Prod.snd heq
        simp at this
      · have := congrArg Prod.snd heq
        simp only [Except.ok.injEq] at this
        rw [← this]
  · intro caller t diff img cid st ht hno
    unfold wordsCreate
    rw [if_neg ht]
    exact contentAddCore_word_ok caller t diff _ cid st hno

/-- C7 witness: each amended clause at concrete inputs, including the
trimmed-storage equation and the unvalidated 21-character word append. -/
theorem contentLength_amended_witness :
    specialistContentAdd 2 "abc" CType.letter Option.none 3 exCSt =
      (exCSt, Except.error (Err.badRequest "Letter with vowel must not exceed 2 characters")) ∧
    contentAdd 9 "ab" CType.letter Option.none 3 exCSt =
      (exCSt, Except.error (Err.badRequest "Letter must be a single character")) ∧
    contentAdd 9 "aaaaaaaaaaaaaaaaaaaaa" CType.word Option.none 3 exCSt =
      (exCSt, Except.error (Err.badRequest "Word must not exceed 20 characters")) ∧
    ({ id := 1001, text := "hi", difficulty := Difficulty.easy,
       image := "default-word.png", createdBy := 9 } : ContentItem).text = jsTrim " hi " ∧
    jsTrim " hi " = "hi" ∧
    ((wordsCreate 9 "aaaaaaaaaaaaaaaaaaaaa" Option.none Option.none Option.none 4
        exCSt).2).isOk = true := by
  refine ⟨?_, ?_, ?_, ?_, by decide, ?_⟩
  · exact contentLength_amended.1 2 "abc" Option.none 3 exCSt
      { parent := 1, assignedSpecialist := some 2, specialistRequestStatus := ReqStatus.approved }
      rfl rfl (by decide) (by decide)
  · exact contentLength_amended.2.2.1 9 "ab" Option.none 3 exCSt (by decide) (by decide)
  · exact contentLength_amended.2.2.2.1 9 "aaaaaaaaaaaaaaaaaaaaa" Option.none 3 exCSt
      (by decide) (by decide)
  · exact contentLength_amended.2.2.2.2.1 9 " hi " CType.word Option.none
      "default-word.png" 4 exCSt
      (contentAddCore 9 " hi " CType.word Option.none "default-word.png" 4 exCSt).1
      { id := 1001, text := "hi", difficulty := Difficulty.easy,
        image := "default-word.png", createdBy := 9 } (by decide)
  · refine contentLength_amended.2.2.2.2.2 9 "aaaaaaaaaaaaaaaaaaaaa" Option.none
      Option.none 4 exCSt (by decide) ?_
    intro doc hdoc
    rw [show findContentDoc exCSt 4 = Option.none from by decide] at hdoc
    cases hdoc

/-- C9: the generic deletion endpoints perform no ownership or
child-assignment check — for any caller, an existing nested content id is
removed after only a not-found check — whereas the specialist-portal
deletion rejects with an authorization failure when the owning child is
assigned to a different specialist. -/
theorem contentDelete_authz :
    (∀ caller i st doc, findDocByItem st i = some doc →
      (contentDelete caller i st).2 = Except.ok () ∧
      getDocById (contentDelete caller i st).1 doc.id = some (stripItem doc i) ∧
      hasItem (stripItem doc i) i = false) ∧
    (∀ caller i st doc, findDocByItem st i = some doc →
      (wordsDelete caller i st).2 = Except.ok () ∧
      getDocById (wordsDelete caller i st).1 doc.id = some (stripItem doc i) ∧
      hasItem (stripItem doc i) i = false) ∧
    (∀ caller i st doc ch sid, findDocByItem st i = some doc →
      getChildC st doc.child = some ch → ch.assignedSpecialist = some sid →
      sid ≠ caller →
      (specialistContentDelete caller i st).2 =
        Except.error (Err.forbidden "Not authorized to delete this content") ∧
      (specialistContentDelete caller i st).1 = st) := by
  refine ⟨?_, ?_, ?_⟩
  · intro caller i st doc hdoc
    unfold contentDelete
    rw [hdoc]
    refine ⟨rfl, ?_, hasItem_stripItem doc i⟩
    exact find_replace_aux st.docs (stripItem doc i)
      ⟨doc, List.mem_of_find?_eq_some hdoc, rfl⟩
  · intro caller i st doc hdoc
    unfold wordsDelete
    rw [hdoc]
    refine ⟨rfl, ?_, hasItem_stripItem doc i⟩
    exact find_replace_aux st.docs (stripItem doc i)
      ⟨doc, List.mem_of_find?_eq_some hdoc, rfl⟩
  · intro caller i st doc ch sid hdoc hch hca hne
    unfold specialistContentDelete
    rw [hdoc]
    dsimp only
    rw [hch]
    dsimp only
    rw [hca]
    dsimp only
    rw [if_pos hne]
    exact ⟨rfl, rfl⟩

/-- C9 witness: an arbitrary caller 9 deletes item 60 through both generic
endpoints even though child 3 is assigned to specialist 2, while the
specialist-portal endpoint rejects caller 9 with an authorization error. -/
theorem contentDelete_authz_witness :
    (contentDelete 9 60 exCSt).2 = Except.ok () ∧
    (wordsDelete 9 60 exCSt).2 = Except.ok () ∧
    hasItem (stripItem { id := 50, child := 3, contentWords := [{ id := 60, text := "تفاحة", createdBy := 2 }] } 60) 60 = false ∧
    (specialistContentDelete 9 60 exCSt).2 =
      Except.error (Err.forbidden "Not authorized to delete this content") ∧
    (specialistContentDelete 9 60 exCSt).1 = exCSt := by
  have h1 := contentDelete_authz.1 9 60 exCSt
    { id := 50, child := 3, contentWords := [{ id := 60, text := "تفاحة", createdBy := 2 }] }
    rfl
  have h2 := contentDelete_authz.2.1 9 60 exCSt
    { id := 50, child := 3, contentWords := [{ id := 60, text := "تفاحة", createdBy := 2 }] }
    rfl
  have h3 := contentDelete_authz.2.2 9 60 exCSt
    { id := 50, child := 3, contentWords := [{ id := 60, text := "تفاحة", createdBy := 2 }] }
    { parent := 1, assignedSpecialist := some 2, specialistRequestStatus := ReqStatus.approved }
    2 rfl rfl rfl (by decide)
  exact ⟨h1.1, h2.1, h1.2.2, h3.1, h3.2⟩

/-- C10 witness: with an empty store and a childId referring to no Child,
both endpoints succeed and the document is created with the sessions. -/
theorem progressAppend_noChecks_witness :
    (progressSession 42 exSession1 []).2.isOk = true ∧
    (progressSync 42 exSessions []).2.isOk = true ∧
    (progressSession 42 exSession1 []).1 =
      [updateOverallStats { child := 42, sessions := [exSession1] }] := by
  have h := progressAppend_noChecks [] 42 exSession1 exSessions
  refine ⟨h.1, h.2.1, ?_⟩
  have h3 := (h.2.2.1 rfl).1
  simpa using h3

end BmoServer
